import Mathlib

/-!
Shallow embedding of the Scrabble game server (rules engine, game lifecycle,
room registry, word validator) together with specification-level definitions
and theorems checking the natural-language specification against the code.

The data model follows src/models/types.ts; the rules engine and game
lifecycle follow the GameService source; the room registry follows
RoomStore.ts; the dictionary follows WordValidator.ts.
-/

namespace Scrabble

/-- Bonus premium of a board cell (BonusType in config/constants). -/
inductive Bonus where
  | DL
  | TL
  | DW
  | TW
deriving DecidableEq, Repr

/-- A tile: id, letter ('A'..'Z', or "" for joker), point value, joker flag. -/
structure Tile where
  id : String
  letter : String
  value : Nat
  isJoker : Bool
deriving DecidableEq, Repr, Inhabited

/-- A tile placed on the board, stamped with its origin (TileOnBoard). -/
structure TileOnBoard extends Tile where
  fromPlayerId : String
  turnPlayed : Nat
deriving DecidableEq, Repr, Inhabited

/-- One board cell (BoardCell): coordinates, optional bonus, optional tile,
and the bonus-consumed flag. -/
structure BoardCell where
  x : Nat
  y : Nat
  bonus : Option Bonus
  tile : Option TileOnBoard
  bonusUsed : Bool
deriving DecidableEq, Repr

/-- The 15×15 board, row-major as in the source (board[y][x]). -/
abbrev Board := List (List BoardCell)

/-- One placement of a play action (MovePlacement): coordinates plus the id of
a tile in the player's rack.  Note the type carries no letter choice. -/
structure MovePlacement where
  x : Nat
  y : Nat
  tileId : String
deriving DecidableEq, Repr, Inhabited

/-- Player move action. -/
inductive Action where
  | play
  | pass
  | exchange
deriving DecidableEq, Repr, Inhabited

/-- Log entry of one applied move (MoveSummary). -/
structure MoveSummary where
  playerId : String
  action : Action
  words : List String
  score : Nat
  placements : List MovePlacement
  turnNumber : Nat
  createdAt : Nat
deriving DecidableEq, Repr, Inhabited

/-- Aggregate per-player statistics (PlayerStats). -/
structure PlayerStats where
  wordsPlayed : Nat
  bestWordScore : Nat
  bestWord : Option String
  totalTurns : Nat
  passes : Nat
deriving DecidableEq, Repr, Inhabited

/-- A player (Player); the transport binding (connectionId) is omitted as it
never affects the game rules. -/
structure Player where
  id : String
  nickname : String
  connected : Bool
  ready : Bool
  score : Int
  rack : List Tile
  stats : PlayerStats
deriving DecidableEq, Repr, Inhabited

/-- Per-room game state (GameState). -/
structure GameState where
  board : Board
  bag : List Tile
  turnIndex : Nat
  activePlayerId : String
  turnEndsAt : Nat
  turnDurationMs : Nat
  lastMove : Option MoveSummary
  log : List MoveSummary
  consecutivePasses : Nat
  startedAt : Nat
  version : Nat
deriving DecidableEq, Repr, Inhabited

/-- Room status. -/
inductive RoomStatus where
  | waiting
  | playing
  | finished
deriving DecidableEq, Repr, Inhabited

/-- A room (Room). -/
structure Room where
  id : String
  hostId : String
  status : RoomStatus
  maxPlayers : Nat
  players : List Player
  game : Option GameState
  lastActivityAt : Nat
deriving DecidableEq, Repr, Inhabited

/-- Errors thrown by GameService.playMove. -/
inductive PlayErr where
  | NO_GAME
  | PLAYER_NOT_IN_ROOM
  | NOT_YOUR_TURN
  | NO_TILES_TO_EXCHANGE
  | BAG_TOO_SMALL
  | TILE_NOT_IN_RACK
  | NO_PLACEMENTS
  | OUT_OF_BOUNDS
  | CELL_OCCUPIED
  | DUPLICATE_TILE
  | NOT_ALIGNED
  | MUST_COVER_CENTER
  | NOT_CONTIGUOUS
  | NOT_CONNECTED
  | NO_WORD_FORMED
  | INVALID_WORD (reason : String)
deriving DecidableEq, Repr

/-- config/constants.ts: export const MAX_CONSECUTIVE_PASSES = 6 (the
constants document concatenated into src/src/utils/id.ts, line 109). -/
def MAX_CONSECUTIVE_PASSES : Nat := 6

/-- The empty cell used as out-of-range default of cell lookups; the source
only dereferences cells after its own bounds checks. -/
def defaultCell (x y : Nat) : BoardCell :=
  { x := x, y := y, bonus := none, tile := none, bonusUsed := false }

/-- board[y][x]. -/
def getCell (board : Board) (x y : Nat) : BoardCell :=
  (board.getD y []).getD x (defaultCell x y)

/-- Functional update of board[y][x]. -/
def updateCell (board : Board) (x y : Nat) (f : BoardCell → BoardCell) : Board :=
  board.set y ((board.getD y []).set x (f (getCell board x y)))

/-- boardIsEmpty: no cell holds a tile. -/
def boardIsEmpty (board : Board) : Bool :=
  board.all (fun row => row.all (fun c => c.tile.isNone))

/-- drawTiles: pop n tiles off the end of the bag (fewer if the bag runs out);
returns (drawn tiles in draw order, remaining bag). -/
def drawTiles (bag : List Tile) (n : Nat) : List Tile × List Tile :=
  (bag.reverse.take n, (bag.reverse.drop n).reverse)

/-- The destructuring swap arr[i] ↔ arr[j] inside shuffle. -/
def listSwap {α} [Inhabited α] (l : List α) (i j : Nat) : List α :=
  (l.set i (l.getD j default)).set j (l.getD i default)

/-- Fisher–Yates loop of shuffle, counting i down to 1; each random draw
Math.floor(Math.random() * (i + 1)) is modelled by rand i % (i + 1). -/
def shuffleGo {α} [Inhabited α] (rand : Nat → Nat) (l : List α) : Nat → List α
  | 0 => l
  | i + 1 => shuffleGo rand (listSwap l (i + 1) (rand (i + 1) % (i + 2))) i

/-- shuffle, parameterized by the randomness source. -/
def shuffle {α} [Inhabited α] (rand : Nat → Nat) (l : List α) : List α :=
  shuffleGo rand l (l.length - 1)

/-- Character containment on strings (String.prototype.includes of one
character), via the character list so that proofs can evaluate it. -/
def strContains (s : String) (c : Char) : Bool := s.data.contains c

/-- toUpperCase, via the character list. -/
def strToUpper (s : String) : String := String.mk (s.data.map Char.toUpper)

/-- toLowerCase, via the character list. -/
def strToLower (s : String) : String := String.mk (s.data.map Char.toLower)

/-- trim, via the character list. -/
def strTrim (s : String) : String :=
  String.mk (((s.data.dropWhile Char.isWhitespace).reverse.dropWhile
    Char.isWhitespace).reverse)

/-- slice(0, n), via the character list. -/
def strTake (s : String) (n : Nat) : String := String.mk (s.data.take n)

/-- Split a character list at every newline. -/
def splitNl : List Char → List (List Char)
  | [] => [[]]
  | c :: rest =>
    let r := splitNl rest
    if c == '\n' then [] :: r
    else (c :: r.headD []) :: r.tail

/-- split(/\r?\n/) (the \r is consumed later by the trim). -/
def splitLines (s : String) : List String := (splitNl s.data).map String.mk

/-- Value/letter record stored per placement key in playMove's placementInfo
map (the source keys the map by the string "x,y"; here the key is (x, y)). -/
structure PInfo where
  value : Nat
  letter : String
deriving DecidableEq, Repr, Inhabited

/-- The placementInfo map as an association list. -/
abbrev PlacementInfo := List ((Nat × Nat) × PInfo)

/-- Map.set: overwrite the entry of an existing key, else append. -/
def infoSet (m : PlacementInfo) (k : Nat × Nat) (v : PInfo) : PlacementInfo :=
  if m.any (fun e => e.1 == k) then
    m.map (fun e => if e.1 == k then (k, v) else e)
  else m ++ [(k, v)]

/-- playMove lines 127–132: build placementInfo from the player's rack. -/
def buildPlacementInfo (placements : List MovePlacement) (rack : List Tile) :
    PlacementInfo :=
  placements.foldl (fun m pl =>
    let tile := (rack.find? (fun t => t.id == pl.tileId)).getD default
    infoSet m (pl.x, pl.y) { value := tile.value, letter := tile.letter }) []

/-- Map.get on placementInfo. -/
def infoGet (m : PlacementInfo) (x y : Nat) : Option PInfo :=
  (m.find? (fun e => e.1 == (x, y))).map (·.2)

/-- Direction of the main word. -/
inductive Dir where
  | row
  | col
deriving DecidableEq, Repr, Inhabited

/-- Character contributed by a newly placed tile to a word string:
(info?.letter ?? '') === '' ? '?' : (info?.letter || '#'). -/
def placedLetterChar (info : PlacementInfo) (x y : Nat) : String :=
  match infoGet info x y with
  | some d => if d.letter == "" then "?" else d.letter
  | none => "?"

/-- Character contributed by an existing board tile: jokers print '?'. -/
def tileChar (t : TileOnBoard) : String :=
  if t.isJoker then "?" else t.letter

/-- One cell's contribution to the main-word string; gap is "." in the
contiguity pass and "" in the final letters pass, as in buildMainWord. -/
def spanCellStr (board : Board) (placements : List MovePlacement)
    (info : PlacementInfo) (gap : String) (x y : Nat) : String :=
  match (getCell board x y).tile with
  | some t => tileChar t
  | none =>
    match placements.find? (fun p => p.x == x && p.y == y) with
    | some _ => placedLetterChar info x y
    | none => gap

/-- Occupancy of row y as a function of x. -/
def occRow (board : Board) (y : Nat) : Nat → Bool :=
  fun x => (getCell board x y).tile.isSome

/-- Occupancy of column x as a function of y. -/
def occCol (board : Board) (x : Nat) : Nat → Bool :=
  fun y => (getCell board x y).tile.isSome

/-- while (k - 1 >= 0 && occupied (k - 1)) k--. -/
def expandLo (occ : Nat → Bool) : Nat → Nat
  | 0 => 0
  | k + 1 => if occ k then expandLo occ k else k + 1

/-- while (k + 1 < 15 && occupied (k + 1)) k++, with fuel 15 ≥ loop bound. -/
def expandHi (occ : Nat → Bool) : Nat → Nat → Nat
  | 0, k => k
  | f + 1, k => if k + 1 < 15 && occ (k + 1) then expandHi occ f (k + 1) else k

/-- Main-word span: lo..hi along the direction, fix the other coordinate. -/
structure MainWord where
  lo : Nat
  hi : Nat
  fix : Nat
  word : String
  connected : Bool
  contiguous : Bool
deriving DecidableEq, Repr, Inhabited

/-- The coordinates spanned by the main word. -/
def spanCells (dir : Dir) (span : MainWord) : List (Nat × Nat) :=
  match dir with
  | .row => (List.range' span.lo (span.hi + 1 - span.lo)).map (fun x => (x, span.fix))
  | .col => (List.range' span.lo (span.hi + 1 - span.lo)).map (fun y => (span.fix, y))

/-- buildMainWord: span covering the placements expanded through existing
tiles, the word string, the contiguity flag (no '.' gap marker survives) and
the connection flag (existing tile inside the span, or a placement with an
orthogonally adjacent existing tile). -/
def buildMainWord (board : Board) (placements : List MovePlacement)
    (info : PlacementInfo) (dir : Dir) : MainWord :=
  match dir with
  | .row =>
    let y := (placements.headD default).y
    let xs := placements.map (·.x)
    let x0 := expandLo (occRow board y) (xs.foldl Nat.min (xs.headD 0))
    let x1 := expandHi (occRow board y) 15 (xs.foldl Nat.max 0)
    let cells := List.range' x0 (x1 + 1 - x0)
    let mark := (cells.map (fun x => spanCellStr board placements info "." x y)).foldl
      (· ++ ·) ""
    let connected0 := cells.any (fun x => (getCell board x y).tile.isSome)
    let connected := connected0 || placements.any (fun p =>
      (decide (0 < p.x) && (getCell board (p.x - 1) y).tile.isSome) ||
      (decide (p.x < 14) && (getCell board (p.x + 1) y).tile.isSome) ||
      (decide (0 < y) && (getCell board p.x (y - 1)).tile.isSome) ||
      (decide (y < 14) && (getCell board p.x (y + 1)).tile.isSome))
    let letters := (cells.map (fun x => spanCellStr board placements info "" x y)).foldl
      (· ++ ·) ""
    { lo := x0, hi := x1, fix := y, word := letters,
      connected := connected, contiguous := !(strContains mark '.') }
  | .col =>
    let x := (placements.headD default).x
    let ys := placements.map (·.y)
    let y0 := expandLo (occCol board x) (ys.foldl Nat.min (ys.headD 0))
    let y1 := expandHi (occCol board x) 15 (ys.foldl Nat.max 0)
    let cells := List.range' y0 (y1 + 1 - y0)
    let mark := (cells.map (fun y => spanCellStr board placements info "." x y)).foldl
      (· ++ ·) ""
    let connected0 := cells.any (fun y => (getCell board x y).tile.isSome)
    let connected := connected0 || placements.any (fun p =>
      (decide (0 < x) && (getCell board (x - 1) p.y).tile.isSome) ||
      (decide (x < 14) && (getCell board (x + 1) p.y).tile.isSome) ||
      (decide (0 < p.y) && (getCell board x (p.y - 1)).tile.isSome) ||
      (decide (p.y < 14) && (getCell board x (p.y + 1)).tile.isSome))
    let letters := (cells.map (fun y => spanCellStr board placements info "" x y)).foldl
      (· ++ ·) ""
    { lo := y0, hi := y1, fix := x, word := letters,
      connected := connected, contiguous := !(strContains mark '.') }

/-- A perpendicular cross word through one placement. -/
structure CrossWord where
  word : String
  x0 : Nat
  x1 : Nat
  y0 : Nat
  y1 : Nat
  anchorX : Nat
  anchorY : Nat
deriving DecidableEq, Repr, Inhabited

/-- One cell's contribution to a vertical cross word at column px through the
placement at (px, py). -/
def crossCellStrV (board : Board) (info : PlacementInfo) (px py y : Nat) : String :=
  match (getCell board px y).tile with
  | some t => tileChar t
  | none => if y == py then placedLetterChar info px y else ""

/-- One cell's contribution to a horizontal cross word at row py through the
placement at (px, py). -/
def crossCellStrH (board : Board) (info : PlacementInfo) (px py x : Nat) : String :=
  match (getCell board x py).tile with
  | some t => tileChar t
  | none => if x == px then placedLetterChar info x py else ""

/-- buildCrossWords: for each placement, the perpendicular span expanded
through existing tiles, kept only if it covers at least two cells. -/
def buildCrossWords (board : Board) (placements : List MovePlacement)
    (info : PlacementInfo) (dir : Dir) : List CrossWord :=
  placements.foldl (fun ws p =>
    match dir with
    | .row =>
      let y0 := expandLo (occCol board p.x) p.y
      let y1 := expandHi (occCol board p.x) 15 p.y
      if 1 ≤ y1 - y0 then
        let letters := ((List.range' y0 (y1 + 1 - y0)).map
          (crossCellStrV board info p.x p.y)).foldl (· ++ ·) ""
        ws ++ [{ word := letters, x0 := p.x, x1 := p.x, y0 := y0, y1 := y1,
                 anchorX := p.x, anchorY := p.y }]
      else ws
    | .col =>
      let x0 := expandLo (occRow board p.y) p.x
      let x1 := expandHi (occRow board p.y) 15 p.x
      if 1 ≤ x1 - x0 then
        let letters := ((List.range' x0 (x1 + 1 - x0)).map
          (crossCellStrH board info p.x p.y)).foldl (· ++ ·) ""
        ws ++ [{ word := letters, x0 := x0, x1 := x1, y0 := p.y, y1 := p.y,
                 anchorX := p.x, anchorY := p.y }]
      else ws) []

/-- letterAndWordMultipliers: (letter multiplier, word multiplier) of a cell;
1/1 if the cell has no bonus or its bonus was already consumed. -/
def letterAndWordMultipliers (cell : BoardCell) : Nat × Nat :=
  match cell.bonus with
  | none => (1, 1)
  | some b =>
    if cell.bonusUsed then (1, 1)
    else
      match b with
      | .DL => (2, 1)
      | .TL => (3, 1)
      | .DW => (1, 2)
      | .TW => (1, 3)

/-- getPlacementLetterValue: placementInfo.get(x,y)?.value ?? 0. -/
def getPlacementLetterValue (info : PlacementInfo) (x y : Nat) : Nat :=
  ((infoGet info x y).map (·.value)).getD 0

/-- Letter contribution of one cell of a scored word: a newly placed tile's
info value times the cell's letter multiplier, an existing tile's bare value
(scoreWord's loop body, score accumulator). -/
def scoreCellLetter (board : Board) (placements : List MovePlacement)
    (info : PlacementInfo) (xy : Nat × Nat) : Nat :=
  let cell := getCell board xy.1 xy.2
  match placements.find? (fun p => p.x == xy.1 && p.y == xy.2) with
  | some _ => getPlacementLetterValue info xy.1 xy.2 * (letterAndWordMultipliers cell).1
  | none => (cell.tile.map (·.value)).getD 0

/-- Word-multiplier contribution of one cell of a scored word (scoreWord's
loop body, wordMultiplier accumulator): cells without a new tile contribute
the neutral factor 1. -/
def scoreCellWordMul (board : Board) (placements : List MovePlacement)
    (xy : Nat × Nat) : Nat :=
  match placements.find? (fun p => p.x == xy.1 && p.y == xy.2) with
  | some _ => (letterAndWordMultipliers (getCell board xy.1 xy.2)).2
  | none => 1

/-- scoreWord: the loop accumulates score (+=) and wordMultiplier (*=) over
the span's cells and returns score * wordMultiplier. -/
def scoreWord (board : Board) (placements : List MovePlacement)
    (info : PlacementInfo) (dir : Dir) (span : MainWord) : Nat :=
  let cells := spanCells dir span
  ((cells.map (scoreCellLetter board placements info)).sum) *
    ((cells.map (scoreCellWordMul board placements)).prod)

/-- The coordinates spanned by a cross word (vertical iff x0 = x1). -/
def crossCells (cw : CrossWord) : List (Nat × Nat) :=
  if cw.x0 == cw.x1 then
    (List.range' cw.y0 (cw.y1 + 1 - cw.y0)).map (fun y => (cw.x0, y))
  else
    (List.range' cw.x0 (cw.x1 + 1 - cw.x0)).map (fun x => (x, cw.y0))

/-- scoreCrossWord: same accumulation over the cross word's cells. -/
def scoreCrossWord (board : Board) (placements : List MovePlacement)
    (info : PlacementInfo) (cw : CrossWord) : Nat :=
  let cells := crossCells cw
  ((cells.map (scoreCellLetter board placements info)).sum) *
    ((cells.map (scoreCellWordMul board placements)).prod)

/-- playMove lines 152–160: total play score, main word plus cross words plus
the 50-point bingo bonus when seven tiles were placed. -/
def playScoreTotal (board : Board) (placements : List MovePlacement)
    (info : PlacementInfo) (dir : Dir) (main : MainWord)
    (cross : List CrossWord) : Nat :=
  scoreWord board placements info dir main +
    (cross.map (scoreCrossWord board placements info)).sum +
    (if placements.length == 7 then 50 else 0)

/-- w.replace(/#/g, '?').toUpperCase(). -/
def normalizeWord (w : String) : String :=
  strToUpper (String.mk (w.data.map (fun c => if c == '#' then '?' else c)))

/-- Data flowing from the validation half of the play branch to its commit
half. -/
structure PlayData where
  dir : Dir
  main : MainWord
  cross : List CrossWord
  allWords : List String
  info : PlacementInfo
deriving DecidableEq, Repr, Inhabited

/-- playMove lines 109–115: walk the placements with the rack-id set and the
set of already used ids; the first offending placement decides the error. -/
def firstRackErr (rackIds : List String) :
    List MovePlacement → List String → Option PlayErr
  | [], _ => none
  | pl :: rest, used =>
    if !(rackIds.contains pl.tileId) then some .TILE_NOT_IN_RACK
    else if used.contains pl.tileId then some .DUPLICATE_TILE
    else firstRackErr rackIds rest (pl.tileId :: used)

/-- The validation half of playMove's play branch (lines 100–150), in source
order: placements non-empty; in bounds and empty cells; rack membership and
no duplicate ids; alignment; first-move center; contiguity; connection;
some word of length ≥ 2; every word accepted by the dictionary. -/
def validatePlay (board : Board) (rack : List Tile)
    (placements : List MovePlacement) (dict : String → Bool) :
    Except PlayErr PlayData :=
  if placements.length == 0 then .error .NO_PLACEMENTS
  else
    match placements.find? (fun pl =>
        !(decide (pl.x < 15) && decide (pl.y < 15)) ||
          (getCell board pl.x pl.y).tile.isSome) with
    | some pl =>
      .error (if !(decide (pl.x < 15) && decide (pl.y < 15)) then .OUT_OF_BOUNDS
        else .CELL_OCCUPIED)
    | none =>
      match firstRackErr (rack.map (·.id)) placements [] with
      | some e => .error e
      | none =>
        let sameRow := placements.all (fun p => p.y == (placements.headD default).y)
        let sameCol := placements.all (fun p => p.x == (placements.headD default).x)
        if !sameRow && !sameCol then .error .NOT_ALIGNED
        else
          let firstMove := boardIsEmpty board
          if firstMove && !(placements.any (fun p => p.x == 7 && p.y == 7)) then
            .error .MUST_COVER_CENTER
          else
            let info := buildPlacementInfo placements rack
            let dir := if sameRow then Dir.row else Dir.col
            let main := buildMainWord board placements info dir
            if !main.contiguous then .error .NOT_CONTIGUOUS
            else if !firstMove && !main.connected then .error .NOT_CONNECTED
            else
              let cross := buildCrossWords board placements info dir
              let allWords := (main.word :: cross.map (·.word)).filter
                (fun w => decide (1 < w.length))
              if allWords.length == 0 then .error .NO_WORD_FORMED
              else
                match allWords.find? (fun w => !(dict (normalizeWord w))) with
                | some w => .error (.INVALID_WORD w)
                | none =>
                  .ok { dir := dir, main := main, cross := cross,
                        allWords := allWords, info := info }

/-- buildMoveSummary. -/
def buildMoveSummary (action : Action) (playerId : String)
    (placements : List MovePlacement) (score : Nat) (game : GameState)
    (words : List String) (now : Nat) : MoveSummary :=
  { playerId := playerId, action := action, words := words, score := score,
    placements := placements, turnNumber := game.version + 1, createdAt := now }

/-- advanceTurn: next turn index mod player count, new active player, fresh
deadline, version + 1. -/
def advanceTurn (room : Room) (now : Nat) : Room :=
  match room.game with
  | none => room
  | some game =>
    let turnIndex := (game.turnIndex + 1) % room.players.length
    { room with game := some { game with
        turnIndex := turnIndex,
        activePlayerId := (room.players.getD turnIndex default).id,
        turnEndsAt := now + game.turnDurationMs,
        version := game.version + 1 } }

/-- Face value of a player's remaining rack. -/
def rackValue (p : Player) : Nat := (p.rack.map (·.value)).sum

/-- checkAndFinalizeIfEnded: end when the bag is empty and some rack is empty,
or enough consecutive passes accumulated; subtract each rack's face value,
credit the first empty-racked player (the for-loop's object-identity test
p !== finisher is positional) with the others' rack values, mark finished. -/
def checkAndFinalizeIfEnded (room : Room) : Room × Bool :=
  match room.game with
  | none => (room, false)
  | some game =>
    let anyEmptyRack := room.players.any (fun p => p.rack.isEmpty)
    if (game.bag.isEmpty && anyEmptyRack) ||
        decide (MAX_CONSECUTIVE_PASSES ≤ game.consecutivePasses) then
      let finisherIdx := room.players.findIdx? (fun p => p.rack.isEmpty)
      let sumOthers := ((room.players.enum.filter
        (fun e => !(finisherIdx == some e.1))).map (fun e => rackValue e.2)).sum
      let players1 := room.players.map
        (fun p => { p with score := p.score - (rackValue p : Int) })
      let players2 :=
        match finisherIdx with
        | none => players1
        | some fi =>
          let f := players1.getD fi default
          players1.set fi { f with score := f.score + (sumOthers : Int) }
      ({ room with players := players2, status := .finished }, true)
    else (room, false)

/-- The shared trailing statements of every successful branch: install the
updated player and game, advance the turn, check the end of game. -/
def commitMove (room : Room) (playerIdx : Nat) (player1 : Player)
    (game2 : GameState) (now : Nat) : Room × Bool :=
  let room1 := { room with players := room.players.set playerIdx player1, game := some game2 }
  let room2 := advanceTurn room1 now
  checkAndFinalizeIfEnded room2

/-- playMove lines 63–71: the pass branch after the common preconditions. -/
def applyPass (room : Room) (game : GameState) (playerIdx : Nat)
    (playerId : String) (now : Nat) : MoveSummary × Room × Bool :=
  let player := room.players.getD playerIdx default
  let player1 := { player with stats :=
    { player.stats with passes := player.stats.passes + 1 } }
  let game1 := { game with consecutivePasses := game.consecutivePasses + 1 }
  let move := buildMoveSummary .pass playerId [] 0 game1 [] now
  let game2 := { game1 with lastMove := some move, log := game1.log ++ [move] }
  let res := commitMove room playerIdx player1 game2 now
  (move, res.1, res.2)

/-- playMove lines 80–96: the exchange branch after its validations. -/
def applyExchange (room : Room) (game : GameState) (playerIdx : Nat)
    (playerId : String) (ids : List String) (rand : Nat → Nat) (now : Nat) :
    MoveSummary × Room × Bool :=
  let player := room.players.getD playerIdx default
  let toReturn := player.rack.filter (fun t => ids.contains t.id)
  let rack1 := player.rack.filter (fun t => !(ids.contains t.id))
  let bag1 := shuffle rand (game.bag ++ toReturn)
  let drawn := (drawTiles bag1 ids.length).1
  let bag2 := (drawTiles bag1 ids.length).2
  let rack2 := rack1 ++ drawn
  let player1 := { player with rack := rack2, stats :=
    { player.stats with passes := player.stats.passes + 1 } }
  let game1 := { game with bag := bag2, consecutivePasses := game.consecutivePasses + 1 }
  let move := buildMoveSummary .exchange playerId [] 0 game1 [] now
  let game2 := { game1 with lastMove := some move, log := game1.log ++ [move] }
  let res := commitMove room playerIdx player1 game2 now
  (move, res.1, res.2)

/-- playMove lines 162–172: write placed tiles to their cells, stamping
fromPlayerId and turnPlayed and consuming the cells' bonuses. -/
def applyPlacements (board : Board) (placements : List MovePlacement)
    (rack : List Tile) (playerId : String) (turnNumber : Nat) : Board :=
  placements.foldl (fun b pl =>
    let tile := (rack.find? (fun t => t.id == pl.tileId)).getD default
    updateCell b pl.x pl.y (fun c =>
      { c with
        tile := some { toTile := tile, fromPlayerId := playerId,
                       turnPlayed := turnNumber },
        bonusUsed := if c.bonus.isSome then true else c.bonusUsed })) board

/-- playMove lines 152–197: the play branch after validation: score, commit
placements, refill the rack, update score and stats, reset the pass counter,
log, advance the turn and check the end of game. -/
def applyPlay (room : Room) (game : GameState) (playerIdx : Nat)
    (playerId : String) (placements : List MovePlacement) (pd : PlayData)
    (now : Nat) : MoveSummary × Room × Bool :=
  let player := room.players.getD playerIdx default
  let total := playScoreTotal game.board placements pd.info pd.dir pd.main pd.cross
  let turnNumber := game.version + 1
  let board1 := applyPlacements game.board placements player.rack playerId turnNumber
  let rack1 := player.rack.filter
    (fun t => !(placements.any (fun pl => pl.tileId == t.id)))
  let drawn := (drawTiles game.bag (Nat.min (7 - rack1.length) game.bag.length)).1
  let bag1 := (drawTiles game.bag (Nat.min (7 - rack1.length) game.bag.length)).2
  let rack2 := rack1 ++ drawn
  let stats1 :=
    { player.stats with
      wordsPlayed := player.stats.wordsPlayed + 1,
      totalTurns := player.stats.totalTurns + 1,
      bestWordScore := if player.stats.bestWordScore < total then total
        else player.stats.bestWordScore,
      bestWord := if player.stats.bestWordScore < total then some pd.main.word
        else player.stats.bestWord }
  let player1 := { player with rack := rack2, score := player.score + (total : Int), stats := stats1 }
  let game1 := { game with board := board1, bag := bag1, consecutivePasses := 0 }
  let move := buildMoveSummary .play playerId placements total game1 pd.allWords now
  let game2 := { game1 with lastMove := some move, log := game1.log ++ [move] }
  let res := commitMove room playerIdx player1 game2 now
  (move, res.1, res.2)

/-- GameService.playMove: preconditions, dispatch on the action, per-action
validations in source order; errors leave the room untouched (second
component), successes return the move summary, end flag and new room. -/
def playMove (room : Room) (playerId : String) (action : Action)
    (placements : List MovePlacement) (tileIdsToExchange : List String)
    (dict : String → Bool) (rand : Nat → Nat) (now : Nat) :
    Except PlayErr (MoveSummary × Bool) × Room :=
  match room.game with
  | none => (.error .NO_GAME, room)
  | some game =>
    match room.players.findIdx? (fun p => p.id == playerId) with
    | none => (.error .PLAYER_NOT_IN_ROOM, room)
    | some playerIdx =>
      if game.activePlayerId ≠ playerId then (.error .NOT_YOUR_TURN, room)
      else
        match action with
        | .pass =>
          let r := applyPass room game playerIdx playerId now
          (.ok (r.1, r.2.2), r.2.1)
        | .exchange =>
          let ids := tileIdsToExchange
          if ids.length == 0 then (.error .NO_TILES_TO_EXCHANGE, room)
          else if game.bag.length < ids.length then (.error .BAG_TOO_SMALL, room)
          else
            let player := room.players.getD playerIdx default
            match ids.find? (fun i => !(player.rack.any (fun t => t.id == i))) with
            | some _ => (.error .TILE_NOT_IN_RACK, room)
            | none =>
              let r := applyExchange room game playerIdx playerId ids rand now
              (.ok (r.1, r.2.2), r.2.1)
        | .play =>
          let player := room.players.getD playerIdx default
          match validatePlay game.board player.rack placements dict with
          | .error e => (.error e, room)
          | .ok pd =>
            let r := applyPlay room game playerIdx playerId placements pd now
            (.ok (r.1, r.2.2), r.2.1)

/-- WebSocketServer.handlePlayMove's failure answer: reason is e.reason when
present and truthy (set only for INVALID_WORD, holding the offending word),
else e.message, the error code. -/
def errCode : PlayErr → String
  | .NO_GAME => "NO_GAME"
  | .PLAYER_NOT_IN_ROOM => "PLAYER_NOT_IN_ROOM"
  | .NOT_YOUR_TURN => "NOT_YOUR_TURN"
  | .NO_TILES_TO_EXCHANGE => "NO_TILES_TO_EXCHANGE"
  | .BAG_TOO_SMALL => "BAG_TOO_SMALL"
  | .TILE_NOT_IN_RACK => "TILE_NOT_IN_RACK"
  | .NO_PLACEMENTS => "NO_PLACEMENTS"
  | .OUT_OF_BOUNDS => "OUT_OF_BOUNDS"
  | .CELL_OCCUPIED => "CELL_OCCUPIED"
  | .DUPLICATE_TILE => "DUPLICATE_TILE"
  | .NOT_ALIGNED => "NOT_ALIGNED"
  | .MUST_COVER_CENTER => "MUST_COVER_CENTER"
  | .NOT_CONTIGUOUS => "NOT_CONTIGUOUS"
  | .NOT_CONNECTED => "NOT_CONNECTED"
  | .NO_WORD_FORMED => "NO_WORD_FORMED"
  | .INVALID_WORD _ => "INVALID_WORD"

/-- The reason field attached to the thrown error (only INVALID_WORD has one). -/
def errReasonField : PlayErr → Option String
  | .INVALID_WORD w => some w
  | _ => none

/-- const reason = e?.reason || e?.message || 'INVALID_MOVE'. -/
def invalidMoveReason (e : PlayErr) : String :=
  match errReasonField e with
  | some w => if w == "" then errCode e else w
  | none => errCode e

/-- Errors thrown by RoomStore.joinRoom. -/
inductive JoinErr where
  | ROOM_NOT_FOUND
  | ROOM_FULL
  | ROOM_NOT_JOINABLE
  | NICKNAME_TAKEN
deriving DecidableEq, Repr

/-- The room registry's map from room id to room, as an association list. -/
abbrev RoomMap := List (String × Room)

/-- this.rooms.get(roomId). -/
def lookupRoom (rooms : RoomMap) (roomId : String) : Option Room :=
  (rooms.find? (fun e => e.1 == roomId)).map (·.2)

/-- A freshly joined player record (RoomStore.joinRoom lines 66–75); the
random id of randomId(16) is passed in as freshId. -/
def newJoinedPlayer (nickname : String) (playerId : Option String)
    (freshId : String) : Player :=
  { id := playerId.getD freshId, nickname := strTake nickname 15,
    connected := true, ready := false, score := 0, rack := [],
    stats := { wordsPlayed := 0, bestWordScore := 0, bestWord := none,
               totalTurns := 0, passes := 0 } }

/-- RoomStore.joinRoom: lookup, capacity, status and nickname checks in
source order, then re-attach by playerId if found, else append a new player;
updateActivity stamps lastActivityAt. -/
def joinRoom (rooms : RoomMap) (roomId nickname : String)
    (playerId : Option String) (freshId : String) (now : Nat) :
    Except JoinErr (Room × Player) :=
  match lookupRoom rooms roomId with
  | none => .error .ROOM_NOT_FOUND
  | some room =>
    if room.maxPlayers ≤ room.players.length then .error .ROOM_FULL
    else if room.status ≠ .waiting then .error .ROOM_NOT_JOINABLE
    else if room.players.any
        (fun p => strToLower p.nickname == strToLower nickname) then
      .error .NICKNAME_TAKEN
    else
      match playerId.bind
          (fun pid => room.players.find? (fun p => p.id == pid)) with
      | some player => .ok ({ room with lastActivityAt := now }, player)
      | none =>
        let player := newJoinedPlayer nickname playerId freshId
        .ok ({ room with players := room.players ++ [player], lastActivityAt := now }, player)

/-- WordValidatorFile's length-indexed dictionary, as an association list. -/
abbrev ByLength := List (Nat × List String)

/-- One step of the constructor's grouping loop: append w to the bucket of
its length, creating the bucket if absent. -/
def bucketAdd (m : ByLength) (n : Nat) (w : String) : ByLength :=
  match m with
  | [] => [(n, [w])]
  | (k, ws) :: rest =>
    if k == n then (k, ws ++ [w]) :: rest else (k, ws) :: bucketAdd rest n w

/-- this.byLength after the constructor's loop. -/
def buildByLength (words : List String) : ByLength :=
  words.foldl (fun m w => bucketAdd m w.length w) []

/-- this.byLength.get(len). -/
def bucketGet (m : ByLength) (n : Nat) : Option (List String) :=
  (m.find? (fun e => e.1 == n)).map (·.2)

/-- The constructor's line processing: split lines, trim, drop empties,
uppercase (the \r of a \r\n line ending is consumed by the trim). -/
def processWords (raw : String) : List String :=
  (((splitLines raw).map strTrim).filter
    (fun w => decide (0 < w.length))).map strToUpper

/-- WordValidatorFile state: the length buckets and the ready flag. -/
structure FileValidator where
  byLength : ByLength
  ready : Bool
deriving Repr, Inhabited

/-- The WordValidatorFile constructor: rawContent is the outcome of the
synchronous file read, none when reading threw. -/
def mkFileValidator (rawContent : Option String) : FileValidator :=
  match rawContent with
  | none => { byLength := [], ready := false }
  | some raw => { byLength := buildByLength (processWords raw), ready := true }

/-- The wildcard scan of isWordValid: all non-'?' positions of W must hold
the same character in v (an out-of-range access is a mismatch). -/
def wildcardMatches (W v : List Char) : Bool :=
  (List.range W.length).all (fun i =>
    match W[i]? with
    | some c =>
      c == '?' || (match v[i]? with
        | some ch => ch == c
        | none => false)
    | none => true)

/-- WordValidatorFile.isWordValid: false unless ready; uppercase the query;
look up the length bucket; exact scan without wildcard, else wildcard scan. -/
def isWordValid (vld : FileValidator) (word : String) : Bool :=
  if !vld.ready then false
  else
    let W := strToUpper word
    match bucketGet vld.byLength W.length with
    | none => false
    | some pool =>
      if !(strContains W '?') then pool.contains W
      else pool.any (fun v => wildcardMatches W.data v.data)

/-! ### Specification-level definitions (written from the spec's words) -/

/-- The cell (x, y) carries a tile newly placed by this move. -/
def specPlacedAt (placements : List MovePlacement) (xy : Nat × Nat) : Bool :=
  placements.any (fun p => p.x == xy.1 && p.y == xy.2)

/-- The letter factor a premium grants (per the spec: DL doubles, TL triples
the letter; word premiums leave the letter alone). -/
def bonusLetterFactor : Bonus → Nat
  | .DL => 2
  | .TL => 3
  | .DW => 1
  | .TW => 1

/-- The word factor a premium grants (DW doubles, TW triples the word). -/
def bonusWordFactor : Bonus → Nat
  | .DL => 1
  | .TL => 1
  | .DW => 2
  | .TW => 3

/-- Spec: the letter multiplier applies only at a newly placed tile whose
cell's premium has not been consumed. -/
def specLetterMulAt (board : Board) (placements : List MovePlacement)
    (xy : Nat × Nat) : Nat :=
  if specPlacedAt placements xy then
    match (getCell board xy.1 xy.2).bonus with
    | some b => if (getCell board xy.1 xy.2).bonusUsed then 1 else bonusLetterFactor b
    | none => 1
  else 1

/-- Spec: the word multiplier applies only at a newly placed tile whose
cell's premium has not been consumed. -/
def specWordMulAt (board : Board) (placements : List MovePlacement)
    (xy : Nat × Nat) : Nat :=
  if specPlacedAt placements xy then
    match (getCell board xy.1 xy.2).bonus with
    | some b => if (getCell board xy.1 xy.2).bonusUsed then 1 else bonusWordFactor b
    | none => 1
  else 1

/-- Spec: letterValue of a word position — joker letters (empty letter in
the data model) contribute zero regardless of position; existing tiles
contribute their base value. -/
def specLetterValueAt (board : Board) (placements : List MovePlacement)
    (info : PlacementInfo) (xy : Nat × Nat) : Nat :=
  if specPlacedAt placements xy then
    match infoGet info xy.1 xy.2 with
    | some d => if d.letter = "" then 0 else d.value
    | none => 0
  else
    match (getCell board xy.1 xy.2).tile with
    | some t => if t.isJoker then 0 else t.value
    | none => 0

/-- Spec: word score = sum(letterValue_i × letterMultiplier_i) ×
product(wordMultipliers) over the word's cells. -/
def specWordScore (board : Board) (placements : List MovePlacement)
    (info : PlacementInfo) (cells : List (Nat × Nat)) : Nat :=
  ((cells.map (fun xy =>
      specLetterValueAt board placements info xy *
        specLetterMulAt board placements xy)).sum) *
    ((cells.map (specWordMulAt board placements)).prod)

/-- Every joker tile sitting on the board has point value 0 (the data-model
invariant: a blank's value remains 0 forever). -/
def boardJokersZero (board : Board) : Prop :=
  ∀ row ∈ board, ∀ c ∈ row, ∀ t, c.tile = some t → t.isJoker = true → t.value = 0

/-- Every joker tile of a rack (empty letter in the data model) has point
value 0. -/
def rackJokersZero (rack : List Tile) : Prop :=
  ∀ t ∈ rack, t.letter = "" → t.value = 0

instance (board : Board) : Decidable (boardJokersZero board) := by
  unfold boardJokersZero; infer_instance

instance (rack : List Tile) : Decidable (rackJokersZero rack) := by
  unfold rackJokersZero; infer_instance

/-- A tile read from a cell is a tile of a row of the board. -/
theorem getCell_tile_mem {board : Board} {x y : Nat} {t : TileOnBoard}
    (h : (getCell board x y).tile = some t) :
    ∃ row ∈ board, ∃ c ∈ row, c.tile = some t := by
  unfold getCell at h
  rcases hy : board[y]? with _ | row
  · simp [List.getD_eq_getElem?_getD, hy, defaultCell] at h
  · have hrow : row ∈ board := by
      rcases List.getElem?_eq_some_iff.1 hy with ⟨hlt, hrow⟩
      exact hrow ▸ List.getElem_mem hlt
    rcases hx : row[x]? with _ | c
    · simp [List.getD_eq_getElem?_getD, hy, hx, defaultCell] at h
    · have hc : c ∈ row := by
        rcases List.getElem?_eq_some_iff.1 hx with ⟨hlt, hc⟩
        exact hc ▸ List.getElem_mem hlt
      refine ⟨row, hrow, c, hc, ?_⟩
      simpa [List.getD_eq_getElem?_getD, hy, hx] using h

/-- On a board whose jokers are worth 0, a joker read from any cell is
worth 0. -/
theorem getCell_jokersZero {board : Board} (hb : boardJokersZero board)
    {x y : Nat} {t : TileOnBoard} (h : (getCell board x y).tile = some t)
    (hj : t.isJoker = true) : t.value = 0 := by
  rcases getCell_tile_mem h with ⟨row, hrow, c, hc, hct⟩
  exact hb row hrow c hc t hct hj

/-- Entries of infoSet come from the old map or are the inserted pair. -/
theorem mem_infoSet {m : PlacementInfo} {k : Nat × Nat} {v : PInfo} {e}
    (h : e ∈ infoSet m k v) : e ∈ m ∨ e = (k, v) := by
  unfold infoSet at h
  split at h
  · rcases List.mem_map.1 h with ⟨e', he', heq⟩
    by_cases hk : (e'.1 == k) = true
    · rw [if_pos hk] at heq
      exact Or.inr heq.symm
    · rw [if_neg hk] at heq
      exact Or.inl (heq ▸ he')
  · rcases List.mem_append.1 h with h' | h'
    · exact Or.inl h'
    · right; simpa using h'

/-- buildPlacementInfo only records values/letters of rack tiles (or the
all-zero default when the id lookup fails), so its joker entries are worth
0 whenever the rack's jokers are. -/
theorem buildPlacementInfo_jokersZero {placements : List MovePlacement}
    {rack : List Tile} (hr : rackJokersZero rack) :
    ∀ e ∈ buildPlacementInfo placements rack, e.2.letter = "" → e.2.value = 0 := by
  unfold buildPlacementInfo
  suffices h : ∀ (ps : List MovePlacement) (m : PlacementInfo),
      (∀ e ∈ m, e.2.letter = "" → e.2.value = 0) →
      ∀ e ∈ ps.foldl (fun m pl =>
        let tile := (rack.find? (fun t => t.id == pl.tileId)).getD default
        infoSet m (pl.x, pl.y) { value := tile.value, letter := tile.letter }) m,
        e.2.letter = "" → e.2.value = 0 by
    intro e he
    exact h placements [] (by simp) e he
  intro ps
  induction ps with
  | nil => intro m hm e he; exact hm e he
  | cons pl rest ih =>
    intro m hm e he
    refine ih _ ?_ e he
    intro e' he'
    rcases mem_infoSet he' with h' | h'
    · exact hm e' h'
    · subst h'
      rcases hfind : rack.find? (fun t => t.id == pl.tileId) with _ | t
      · simp only [hfind, Option.getD_none]
        intro _
        rfl
      · have ht : t ∈ rack := List.mem_of_find?_eq_some hfind
        simpa [hfind] using hr t ht

/-- An entry delivered by infoGet is an entry of the map. -/
theorem infoGet_mem {m : PlacementInfo} {x y : Nat} {d : PInfo}
    (h : infoGet m x y = some d) : ∃ k, (k, d) ∈ m := by
  unfold infoGet at h
  rcases hf : m.find? (fun e => e.1 == (x, y)) with _ | e
  · simp [hf] at h
  · have he : e ∈ m := List.mem_of_find?_eq_some hf
    rw [hf] at h
    have h2 : e.2 = d := by simpa using h
    exact ⟨e.1, by rw [← h2]; simpa using he⟩

/-- Per-cell letter contribution: the code's branch (info value times cell
letter multiplier for new tiles, bare value for existing tiles) equals the
spec's letterValue × letterMultiplier, given the joker-value invariants. -/
theorem scoreCellLetter_eq_spec {board : Board} {placements : List MovePlacement}
    {info : PlacementInfo} (xy : Nat × Nat)
    (hb : boardJokersZero board)
    (hi : ∀ e ∈ info, e.2.letter = "" → e.2.value = 0) :
    scoreCellLetter board placements info xy =
      specLetterValueAt board placements info xy * specLetterMulAt board placements xy := by
  unfold scoreCellLetter specLetterValueAt specLetterMulAt specPlacedAt
  rcases hf : placements.find? (fun p => p.x == xy.1 && p.y == xy.2) with _ | p
  · have hany : placements.any (fun p => p.x == xy.1 && p.y == xy.2) = false := by
      rw [List.any_eq_false]
      intro p hp
      have := List.find?_eq_none.1 hf p hp
      simpa using this
    simp only [hf, hany, Bool.false_eq_true, if_false]
    rcases ht : (getCell board xy.1 xy.2).tile with _ | t
    · simp [ht]
    · rcases hj : t.isJoker with hj' | hj'
      · simp [ht, hj]
      · have := getCell_jokersZero hb ht hj
        simp [ht, hj, this]
  · have hany : placements.any (fun p => p.x == xy.1 && p.y == xy.2) = true := by
      rw [List.any_eq_true]
      refine ⟨p, List.mem_of_find?_eq_some hf, ?_⟩
      have := List.find?_some hf
      simpa using this
    simp only [hf, hany, if_pos rfl]
    have hval : getPlacementLetterValue info xy.1 xy.2 =
        (match infoGet info xy.1 xy.2 with
          | some d => if d.letter = "" then 0 else d.value
          | none => 0) := by
      unfold getPlacementLetterValue
      rcases hg : infoGet info xy.1 xy.2 with _ | d
      · simp
      · rcases infoGet_mem hg with ⟨k, hk⟩
        by_cases hl : d.letter = ""
        · have := hi (k, d) hk hl
          simp only [this] at *
          simp [hl, this]
        · simp [hl]
    have hmul : (letterAndWordMultipliers (getCell board xy.1 xy.2)).1 =
        (match (getCell board xy.1 xy.2).bonus with
          | some b => if (getCell board xy.1 xy.2).bonusUsed then 1 else bonusLetterFactor b
          | none => 1) := by
      unfold letterAndWordMultipliers
      rcases (getCell board xy.1 xy.2).bonus with _ | b
      · rfl
      · rcases hbu : (getCell board xy.1 xy.2).bonusUsed with h' | h'
        · simp [hbu]; cases b <;> rfl
        · simp [hbu]
    rw [hval, hmul]
    simp

/-- Per-cell word-multiplier contribution equals the spec's. -/
theorem scoreCellWordMul_eq_spec {board : Board} {placements : List MovePlacement}
    (xy : Nat × Nat) :
    scoreCellWordMul board placements xy = specWordMulAt board placements xy := by
  unfold scoreCellWordMul specWordMulAt specPlacedAt
  rcases hf : placements.find? (fun p => p.x == xy.1 && p.y == xy.2) with _ | p
  · have hany : placements.any (fun p => p.x == xy.1 && p.y == xy.2) = false := by
      rw [List.any_eq_false]
      intro p hp
      have := List.find?_eq_none.1 hf p hp
      simpa using this
    simp [hf, hany]
  · have hany : placements.any (fun p => p.x == xy.1 && p.y == xy.2) = true := by
      rw [List.any_eq_true]
      refine ⟨p, List.mem_of_find?_eq_some hf, ?_⟩
      have := List.find?_some hf
      simpa using this
    simp only [hf, hany, if_pos rfl]
    unfold letterAndWordMultipliers
    rcases (getCell board xy.1 xy.2).bonus with _ | b
    · simp
    · rcases hbu : (getCell board xy.1 xy.2).bonusUsed with h' | h'
      · simp only [hbu, Bool.false_eq_true, if_false, if_true]
        cases b <;> rfl
      · simp [hbu]

/-- scoreWord (and scoreCrossWord, which shares the accumulation) computes
the spec's word score over any cell list. -/
theorem wordScore_eq_spec {board : Board} {placements : List MovePlacement}
    {info : PlacementInfo} (cells : List (Nat × Nat))
    (hb : boardJokersZero board)
    (hi : ∀ e ∈ info, e.2.letter = "" → e.2.value = 0) :
    ((cells.map (scoreCellLetter board placements info)).sum) *
      ((cells.map (scoreCellWordMul board placements)).prod) =
      specWordScore board placements info cells := by
  unfold specWordScore
  congr 1
  · exact congrArg List.sum (List.map_congr_left
      (fun xy _ => scoreCellLetter_eq_spec xy hb hi))
  · exact congrArg List.prod (List.map_congr_left
      (fun xy _ => scoreCellWordMul_eq_spec xy))

/-- Decidable equality on Except results. -/
instance {e a : Type} [DecidableEq e] [DecidableEq a] : DecidableEq (Except e a) :=
  fun x y =>
    match x, y with
    | .error u, .error v =>
      if h : u = v then .isTrue (by rw [h]) else
        .isFalse (by intro hc; cases hc; exact h rfl)
    | .ok u, .ok v =>
      if h : u = v then .isTrue (by rw [h]) else
        .isFalse (by intro hc; cases hc; exact h rfl)
    | .error _, .ok _ => .isFalse (by intro hc; cases hc)
    | .ok _, .error _ => .isFalse (by intro hc; cases hc)

/-! ### Concrete fixtures -/

/-- The empty 15×15 board. -/
def emptyBoard : Board :=
  (List.range 15).map (fun y => (List.range 15).map (fun x => defaultCell x y))

/-- An S tile worth 1 point. -/
def tileS : Tile := { id := "tS", letter := "S", value := 1, isJoker := false }

/-- A joker: empty letter, worth 0. -/
def tileJ : Tile := { id := "tJ", letter := "", value := 0, isJoker := true }

/-- A T tile worth 1 point, already on the board. -/
def tOnBoardT : TileOnBoard :=
  { id := "bT", letter := "T", value := 1, isJoker := false,
    fromPlayerId := "p0", turnPlayed := 1 }

/-- A bag tile. -/
def tileA : Tile := { id := "bagA", letter := "A", value := 1, isJoker := false }

/-- A B tile worth 3 points. -/
def tileB : Tile := { id := "tB", letter := "B", value := 3, isJoker := false }

/-- Board holding a single existing T at (5, 5). -/
def boardWithT : Board :=
  updateCell emptyBoard 5 5 (fun c => { c with tile := some tOnBoardT })

/-- Zeroed stats. -/
def stats0 : PlayerStats :=
  { wordsPlayed := 0, bestWordScore := 0, bestWord := none, totalTurns := 0,
    passes := 0 }

/-- The accept-everything dictionary. -/
def dictAll : String → Bool := fun _ => true

/-- The reject-everything dictionary. -/
def dictNone : String → Bool := fun _ => false

/-- A randomness source that always answers 0. -/
def randZero : Nat → Nat := fun _ => 0

/-- Active player p1 holding the single S tile. -/
def playerS : Player :=
  { id := "p1", nickname := "Al", connected := true, ready := true,
    score := 0, rack := [tileS], stats := stats0 }

/-- Game on boardWithT, bag [tileA], p1 to move, version 3. -/
def gameT : GameState :=
  { board := boardWithT, bag := [tileA], turnIndex := 0,
    activePlayerId := "p1", turnEndsAt := 0, turnDurationMs := 120000,
    lastMove := none, log := [], consecutivePasses := 0, startedAt := 0,
    version := 3 }

/-- Playing room around gameT. -/
def roomT : Room :=
  { id := "R", hostId := "p1", status := .playing, maxPlayers := 4,
    players := [playerS], game := some gameT, lastActivityAt := 0 }

/-- The single-tile play S at (5, 6), under the existing T at (5, 5). -/
def plS56 : MovePlacement := { x := 5, y := 6, tileId := "tS" }

/-- C1 witness rack: an S and a joker. -/
def c1Rack : List Tile := [tileS, tileJ]

/-- C1 witness placements: S at (5, 6) and the joker at (5, 7), extending the
existing T at (5, 5) downwards. -/
def c1Pls : List MovePlacement :=
  [{ x := 5, y := 6, tileId := "tS" }, { x := 5, y := 7, tileId := "tJ" }]

/-- C1 witness placementInfo. -/
def c1Info : PlacementInfo := buildPlacementInfo c1Pls c1Rack

/-- C1 witness main word. -/
def c1Main : MainWord := buildMainWord boardWithT c1Pls c1Info .col

/-- C1 witness cross words. -/
def c1Cross : List CrossWord := buildCrossWords boardWithT c1Pls c1Info .col

/-! ### Claim theorems -/

/-- C1: for a play, each formed word's score computed by the code
(scoreWord / scoreCrossWord) equals the spec formula
sum(letterValue_i × letterMultiplier_i) × product(wordMultipliers), where
multipliers apply only at newly placed tiles on cells with an unconsumed
premium, existing tiles contribute their base value, jokers contribute 0;
and the total play score (playScoreTotal, used by playMove) is the main-word
score plus the cross-word scores plus 50 exactly when seven tiles were
placed. -/
theorem c1_play_scoring (board : Board) (rack : List Tile)
    (placements : List MovePlacement) (dir : Dir)
    (info : PlacementInfo) (main : MainWord) (cross : List CrossWord)
    (hinfo : info = buildPlacementInfo placements rack)
    (hmain : main = buildMainWord board placements info dir)
    (hcross : cross = buildCrossWords board placements info dir)
    (hb : boardJokersZero board) (hr : rackJokersZero rack) :
    scoreWord board placements info dir main =
      specWordScore board placements info (spanCells dir main) ∧
    (∀ cw ∈ cross, scoreCrossWord board placements info cw =
      specWordScore board placements info (crossCells cw)) ∧
    playScoreTotal board placements info dir main cross =
      specWordScore board placements info (spanCells dir main) +
        (cross.map (fun cw =>
          specWordScore board placements info (crossCells cw))).sum +
        (if placements.length = 7 then 50 else 0) := by
  have hi : ∀ e ∈ info, e.2.letter = "" → e.2.value = 0 :=
    hinfo ▸ buildPlacementInfo_jokersZero hr
  have hmainEq : scoreWord board placements info dir main =
      specWordScore board placements info (spanCells dir main) := by
    unfold scoreWord
    exact wordScore_eq_spec _ hb hi
  have hcrossEq : ∀ cw ∈ cross, scoreCrossWord board placements info cw =
      specWordScore board placements info (crossCells cw) := by
    intro cw _
    unfold scoreCrossWord
    exact wordScore_eq_spec _ hb hi
  refine ⟨hmainEq, hcrossEq, ?_⟩
  unfold playScoreTotal
  rw [hmainEq]
  congr 1
  · congr 1
    exact congrArg List.sum (List.map_congr_left hcrossEq)
  · simp

/-- Witness for C1 at a concrete two-tile play (an S and a joker) through an
existing tile. -/
theorem c1_play_scoring_witness :
    (boardJokersZero boardWithT ∧ rackJokersZero c1Rack) ∧
    (scoreWord boardWithT c1Pls c1Info .col c1Main =
      specWordScore boardWithT c1Pls c1Info (spanCells .col c1Main) ∧
    (∀ cw ∈ c1Cross, scoreCrossWord boardWithT c1Pls c1Info cw =
      specWordScore boardWithT c1Pls c1Info (crossCells cw)) ∧
    playScoreTotal boardWithT c1Pls c1Info .col c1Main c1Cross =
      specWordScore boardWithT c1Pls c1Info (spanCells .col c1Main) +
        (c1Cross.map (fun cw =>
          specWordScore boardWithT c1Pls c1Info (crossCells cw))).sum +
        (if c1Pls.length = 7 then 50 else 0)) :=
  ⟨⟨by decide, by decide⟩,
    c1_play_scoring boardWithT c1Rack c1Pls .col c1Info c1Main c1Cross
      rfl rfl rfl (by decide) (by decide)⟩

/-- C4 helper data: the placementInfo, main span and cross word of the
single-tile play S at (5, 6) below the existing T at (5, 5). -/
def c4Info : PlacementInfo := buildPlacementInfo [plS56] [tileS]

/-- C4 main span (the degenerate horizontal length-1 span "S"). -/
def c4Main : MainWord := buildMainWord boardWithT [plS56] c4Info .row

/-- C4 cross word (the vertical "TS"). -/
def c4Cross0 : CrossWord :=
  (buildCrossWords boardWithT [plS56] c4Info .row).headD default

/-- C4: the code scores the single-tile play S under T as 3: the vertical
span "TS" of length ≥ 2 scores 2, but the degenerate length-1 main span "S"
is also scored (1), contradicting the claim that only spans of length ≥ 2
contribute and the move's score equals the score of "TS" alone. -/
theorem c4_degenerate_span_scored :
    (playMove roomT "p1" .play [plS56] [] dictAll randZero 99).1 =
      .ok ({ playerId := "p1", action := .play, words := ["TS"], score := 3,
             placements := [plS56], turnNumber := 4, createdAt := 99 }, false) ∧
    scoreCrossWord boardWithT [plS56] c4Info c4Cross0 = 2 ∧
    scoreWord boardWithT [plS56] c4Info .row c4Main = 1 ∧
    c4Main.word = "S" ∧ c4Cross0.word = "TS" := by
  refine ⟨?_, ?_, ?_, ?_, ?_⟩ <;> decide

/-- Spec: the game ends when either the bag is empty and some player's rack
is empty, or the consecutive-passes counter has reached its maximum (6). -/
def endCond (room : Room) (g : GameState) : Prop :=
  (g.bag = [] ∧ ∃ p ∈ room.players, p.rack = []) ∨
    MAX_CONSECUTIVE_PASSES ≤ g.consecutivePasses

instance (room : Room) (g : GameState) : Decidable (endCond room g) := by
  unfold endCond; infer_instance

/-- Spec: the sum of the rack face values of every player other than the
one at index i. -/
def sumOthersSpec (room : Room) (i : Nat) : Nat :=
  ((room.players.enum.filter (fun e => !(e.1 == i))).map
    (fun e => rackValue e.2)).sum

/-- getD at a valid index is the element there. -/
theorem getD_eq_getElem' {α} [Inhabited α] {l : List α} {i : Nat}
    (h : i < l.length) : l.getD i default = l[i] := by
  simp [List.getD_eq_getElem?_getD, List.getElem?_eq_getElem h]

/-- C2: after a move, checkAndFinalizeIfEnded moves the room to status
finished exactly when the bag is empty and some rack is empty or six
consecutive passes accumulated; on that transition every player's score
drops by their rack's face value, and when exactly one player has an empty
rack that player additionally gains the sum of the others' rack values. -/
theorem c2_end_finalize (room : Room) (g : GameState)
    (hg : room.game = some g) (hs : room.status = .playing) :
    ((checkAndFinalizeIfEnded room).1.status = .finished ↔ endCond room g) ∧
    ((checkAndFinalizeIfEnded room).2 = true ↔ endCond room g) ∧
    (endCond room g →
      (checkAndFinalizeIfEnded room).1.players.length = room.players.length ∧
      ((∀ p ∈ room.players, p.rack ≠ []) →
        ∀ i, i < room.players.length →
          ((checkAndFinalizeIfEnded room).1.players.getD i default).score =
            (room.players.getD i default).score -
              (rackValue (room.players.getD i default) : Int)) ∧
      ((room.players.filter (fun p => p.rack.isEmpty)).length = 1 →
        ∀ i, i < room.players.length →
          ((checkAndFinalizeIfEnded room).1.players.getD i default).score =
            (room.players.getD i default).score -
              (rackValue (room.players.getD i default) : Int) +
              (if room.players.findIdx? (fun p => p.rack.isEmpty) = some i then
                (sumOthersSpec room i : Int) else 0))) := by
  have hiff : ((g.bag.isEmpty && room.players.any (fun p => p.rack.isEmpty)) ||
      decide (MAX_CONSECUTIVE_PASSES ≤ g.consecutivePasses)) = true ↔
      endCond room g := by
    unfold endCond
    simp [List.any_eq_true, List.isEmpty_iff]
  rcases hb : ((g.bag.isEmpty && room.players.any (fun p => p.rack.isEmpty)) ||
      decide (MAX_CONSECUTIVE_PASSES ≤ g.consecutivePasses)) with _ | _
  · have hnc : ¬ endCond room g := by
      intro h
      rw [← hiff] at h
      rw [hb] at h
      cases h
    have hres : checkAndFinalizeIfEnded room = (room, false) := by
      simp [checkAndFinalizeIfEnded, hg, hb]
    rw [hres]
    refine ⟨?_, ?_, ?_⟩
    · constructor
      · intro h
        rw [hs] at h
        cases h
      · intro h
        exact absurd h hnc
    · constructor
      · intro h
        cases h
      · intro h
        exact absurd h hnc
    · intro h
      exact absurd h hnc
  · have hcond : endCond room g := hiff.1 (by rw [hb])
    have hres : checkAndFinalizeIfEnded room =
        ({ room with
           players :=
             match room.players.findIdx? (fun p => p.rack.isEmpty) with
             | none => room.players.map
                 (fun p => { p with score := p.score - (rackValue p : Int) })
             | some fi =>
               let players1 := room.players.map
                 (fun p => { p with score := p.score - (rackValue p : Int) })
               let f := players1.getD fi default
               players1.set fi { f with score := f.score +
                 (((room.players.enum.filter
                   (fun e => !(room.players.findIdx? (fun p => p.rack.isEmpty) ==
                     some e.1))).map (fun e => rackValue e.2)).sum : Int) },
           status := .finished }, true) := by
      simp only [checkAndFinalizeIfEnded, hg, hb]
      rcases hfi : room.players.findIdx? (fun p => p.rack.isEmpty) with _ | fi <;>
        simp [hfi]
    rw [hres]
    refine ⟨by simp [hcond], by simp [hcond], fun _ => ?_⟩
    have hlen1 : (room.players.map
        (fun p => { p with score := p.score - (rackValue p : Int) })).length =
        room.players.length := by simp
    refine ⟨?_, ?_, ?_⟩
    · rcases hfi : room.players.findIdx? (fun p => p.rack.isEmpty) with _ | fi <;>
        simp [hfi]
    · intro hne i hi
      have hfi : room.players.findIdx? (fun p => p.rack.isEmpty) = none := by
        rw [List.findIdx?_eq_none_iff]
        intro p hp
        simp [List.isEmpty_eq_false]
        exact hne p hp
      simp only [hfi]
      rw [getD_eq_getElem' (by simpa using hi), getD_eq_getElem' hi]
      simp [List.getElem_map]
    · intro hone i hi
      have hex : ∃ p ∈ room.players, p.rack.isEmpty = true := by
        rcases hfil : room.players.filter (fun p => p.rack.isEmpty) with _ | ⟨p, rest⟩
        · rw [hfil] at hone
          cases hone
        · have hp : p ∈ room.players.filter (fun p => p.rack.isEmpty) := by
            rw [hfil]
            exact List.mem_cons_self p rest
          exact ⟨p, (List.mem_filter.1 hp).1, (List.mem_filter.1 hp).2⟩
      have hsome : (room.players.findIdx? (fun p => p.rack.isEmpty)).isSome := by
        rw [List.findIdx?_isSome, List.any_eq_true]
        exact hex
      rcases hfi : room.players.findIdx? (fun p => p.rack.isEmpty) with _ | fi
      · rw [hfi] at hsome
        cases hsome
      rcases List.findIdx?_eq_some_iff_getElem.1 hfi with ⟨hfl, hpfi, hbefore⟩
      simp only [hfi]
      by_cases hieq : i = fi
      · subst hieq
        rw [getD_eq_getElem' (by simpa using hi)]
        rw [List.getElem_set_self (by simpa using hi)]
        rw [getD_eq_getElem' (by simpa using hi), getD_eq_getElem' hi]
        simp only [List.getElem_map, if_pos rfl]
        have hsum : ((room.players.enum.filter (fun e => !(some i == some e.1))).map
            (fun e => rackValue e.2)).sum = sumOthersSpec room i := by
          unfold sumOthersSpec
          congr 2
          apply List.filter_congr
          intro e _
          simp [eq_comm]
        rw [← hsum]
        simp
      · rw [getD_eq_getElem' (by simpa using hi)]
        rw [List.getElem_set]
        rw [if_neg (by omega)]
        rw [getD_eq_getElem' hi]
        have hcondF : ¬ ((some fi : Option Nat) = some i) := by
          simp only [Option.some.injEq]
          omega
        rw [if_neg hcondF]
        simp [List.getElem_map]

/-- C2 witness player with an empty rack. -/
def c2PlayerA : Player :=
  { id := "a", nickname := "A", connected := true, ready := true,
    score := 10, rack := [], stats := stats0 }

/-- C2 witness player still holding a 3-point tile. -/
def c2PlayerB : Player :=
  { id := "b", nickname := "B", connected := true, ready := true,
    score := 20, rack := [tileB], stats := stats0 }

/-- C2 witness game: empty bag. -/
def c2Game : GameState :=
  { board := emptyBoard, bag := [], turnIndex := 0, activePlayerId := "a",
    turnEndsAt := 0, turnDurationMs := 120000, lastMove := none, log := [],
    consecutivePasses := 0, startedAt := 0, version := 5 }

/-- C2 witness room: player a just went out, the bag is empty. -/
def c2Room : Room :=
  { id := "R2", hostId := "a", status := .playing, maxPlayers := 4,
    players := [c2PlayerA, c2PlayerB], game := some c2Game,
    lastActivityAt := 0 }

/-- Witness for C2 at a finished game with exactly one empty rack. -/
theorem c2_end_finalize_witness :
    (c2Room.game = some c2Game ∧ c2Room.status = .playing) ∧
    (((checkAndFinalizeIfEnded c2Room).1.status = .finished ↔ endCond c2Room c2Game) ∧
    ((checkAndFinalizeIfEnded c2Room).2 = true ↔ endCond c2Room c2Game) ∧
    (endCond c2Room c2Game →
      (checkAndFinalizeIfEnded c2Room).1.players.length = c2Room.players.length ∧
      ((∀ p ∈ c2Room.players, p.rack ≠ []) →
        ∀ i, i < c2Room.players.length →
          ((checkAndFinalizeIfEnded c2Room).1.players.getD i default).score =
            (c2Room.players.getD i default).score -
              (rackValue (c2Room.players.getD i default) : Int)) ∧
      ((c2Room.players.filter (fun p => p.rack.isEmpty)).length = 1 →
        ∀ i, i < c2Room.players.length →
          ((checkAndFinalizeIfEnded c2Room).1.players.getD i default).score =
            (c2Room.players.getD i default).score -
              (rackValue (c2Room.players.getD i default) : Int) +
              (if c2Room.players.findIdx? (fun p => p.rack.isEmpty) = some i then
                (sumOthersSpec c2Room i : Int) else 0)))) :=
  ⟨⟨rfl, rfl⟩, c2_end_finalize c2Room c2Game rfl rfl⟩

/-- Finalization never touches the game state itself (only players and
status). -/
theorem checkAndFinalize_game (r : Room) :
    (checkAndFinalizeIfEnded r).1.game = r.game := by
  unfold checkAndFinalizeIfEnded
  rcases hgm : r.game with _ | g
  · exact hgm
  · dsimp only
    split
    · rfl
    · exact hgm

/-- Finalization preserves the number of players. -/
theorem checkAndFinalize_players_length (r : Room) :
    (checkAndFinalizeIfEnded r).1.players.length = r.players.length := by
  unfold checkAndFinalizeIfEnded
  rcases hgm : r.game with _ | g
  · rfl
  · dsimp only
    split
    · rcases hfi : r.players.findIdx? (fun p => p.rack.isEmpty) with _ | fi <;>
        simp [hfi]
    · rfl

/-- Replacing a player by one with the same id leaves every seat's id
unchanged. -/
theorem getD_set_id (players : List Player) (idx j : Nat) (p1 : Player)
    (hid : p1.id = (players.getD idx default).id) :
    ((players.set idx p1).getD j default).id = (players.getD j default).id := by
  by_cases hj : j < players.length
  · rw [getD_eq_getElem' (by simpa using hj), getD_eq_getElem' hj,
      List.getElem_set]
    split
    · rename_i hij
      subst hij
      rw [hid, getD_eq_getElem' hj]
    · rfl
  · rw [List.getD_eq_getElem?_getD, List.getD_eq_getElem?_getD]
    rw [List.getElem?_eq_none (by simpa using Nat.le_of_not_lt hj),
      List.getElem?_eq_none (by exact Nat.le_of_not_lt hj)]

/-- The turn handover after a move: advanceTurn followed by the end check
yields a game whose turn index, active player, deadline and version follow
the claim, and the player count survives. -/
theorem advance_then_finalize (room1 : Room) (g2 : GameState) (now : Nat)
    (h1 : room1.game = some g2) :
    ∃ g', (checkAndFinalizeIfEnded (advanceTurn room1 now)).1.game = some g' ∧
      g'.turnIndex = (g2.turnIndex + 1) % room1.players.length ∧
      g'.activePlayerId =
        (room1.players.getD ((g2.turnIndex + 1) % room1.players.length)
          default).id ∧
      g'.turnEndsAt = now + g2.turnDurationMs ∧
      g'.version = g2.version + 1 ∧
      (checkAndFinalizeIfEnded (advanceTurn room1 now)).1.players.length =
        room1.players.length := by
  have hadv : advanceTurn room1 now =
      { room1 with game := some { g2 with
          turnIndex := (g2.turnIndex + 1) % room1.players.length,
          activePlayerId :=
            (room1.players.getD ((g2.turnIndex + 1) % room1.players.length)
              default).id,
          turnEndsAt := now + g2.turnDurationMs,
          version := g2.version + 1 } } := by
    unfold advanceTurn
    rw [h1]
  have hgame : (checkAndFinalizeIfEnded (advanceTurn room1 now)).1.game =
      some { g2 with
        turnIndex := (g2.turnIndex + 1) % room1.players.length,
        activePlayerId :=
          (room1.players.getD ((g2.turnIndex + 1) % room1.players.length)
            default).id,
        turnEndsAt := now + g2.turnDurationMs,
        version := g2.version + 1 } := by
    rw [checkAndFinalize_game, hadv]
  refine ⟨_, hgame, rfl, rfl, rfl, rfl, ?_⟩
  rw [checkAndFinalize_players_length, hadv]

/-- Characterization of a successful playMove: the common preconditions held
and the result came from the action's branch with its validations passed. -/
theorem playMove_ok_cases (room : Room) (playerId : String) (action : Action)
    (placements : List MovePlacement) (ids : List String)
    (dict : String → Bool) (rand : Nat → Nat) (now : Nat)
    (mv : MoveSummary) (ended : Bool) (r' : Room)
    (h : playMove room playerId action placements ids dict rand now =
      (.ok (mv, ended), r')) :
    ∃ g idx, room.game = some g ∧
      room.players.findIdx? (fun p => p.id == playerId) = some idx ∧
      g.activePlayerId = playerId ∧
      ((action = .pass ∧
        applyPass room g idx playerId now = (mv, r', ended)) ∨
       (action = .exchange ∧ ids.length ≠ 0 ∧
        ¬ g.bag.length < ids.length ∧
        ids.find? (fun i =>
          !((room.players.getD idx default).rack.any (fun t => t.id == i))) =
          none ∧
        applyExchange room g idx playerId ids rand now = (mv, r', ended)) ∨
       (∃ pd, action = .play ∧
        validatePlay g.board (room.players.getD idx default).rack placements
          dict = .ok pd ∧
        applyPlay room g idx playerId placements pd now = (mv, r', ended))) := by
  unfold playMove at h
  rcases hgm : room.game with _ | g
  · rw [hgm] at h
    simp at h
  rw [hgm] at h
  rcases hidx : room.players.findIdx? (fun p => p.id == playerId) with _ | idx
  · rw [hidx] at h
    simp at h
  rw [hidx] at h
  dsimp only at h
  by_cases hne : g.activePlayerId ≠ playerId
  · rw [if_pos hne] at h
    simp at h
  rw [if_neg hne] at h
  push_neg at hne
  refine ⟨g, idx, rfl, hidx, hne, ?_⟩
  cases action with
  | pass =>
    left
    refine ⟨rfl, ?_⟩
    simp only at h
    injection h with hA hB
    injection hA with hC
    injection hC with h1 h2
    exact Prod.ext h1 (Prod.ext hB h2)
  | exchange =>
    right; left
    simp only at h
    by_cases hlen : (ids.length == 0) = true
    · rw [if_pos hlen] at h
      simp at h
    rw [if_neg hlen] at h
    by_cases hbag : g.bag.length < ids.length
    · rw [if_pos hbag] at h
      simp at h
    rw [if_neg hbag] at h
    rcases hown : ids.find? (fun i =>
        !((room.players.getD idx default).rack.any (fun t => t.id == i))) with _ | w
    · rw [hown] at h
      injection h with hA hB
      injection hA with hC
      injection hC with h1 h2
      refine ⟨rfl, by simpa using hlen, hbag, rfl, ?_⟩
      exact Prod.ext h1 (Prod.ext hB h2)
    · rw [hown] at h
      simp at h
  | play =>
    right; right
    simp only at h
    rcases hv : validatePlay g.board (room.players.getD idx default).rack
        placements dict with e | pd
    · rw [hv] at h
      simp at h
    · rw [hv] at h
      refine ⟨pd, rfl, rfl, ?_⟩
      injection h with hA hB
      injection hA with hC
      injection hC with h1 h2
      exact Prod.ext h1 (Prod.ext hB h2)

/-- What commitMove guarantees about the new game's turn data, stated over
the original player list (the installed player keeps their seat's id). -/
theorem commitMove_spec (room : Room) (idx : Nat) (p1 : Player)
    (g2 : GameState) (now : Nat)
    (hid : p1.id = (room.players.getD idx default).id) :
    ∃ g', (commitMove room idx p1 g2 now).1.game = some g' ∧
      g'.turnIndex = (g2.turnIndex + 1) % room.players.length ∧
      g'.activePlayerId =
        (room.players.getD ((g2.turnIndex + 1) % room.players.length)
          default).id ∧
      g'.turnEndsAt = now + g2.turnDurationMs ∧
      g'.version = g2.version + 1 ∧
      (commitMove room idx p1 g2 now).1.players.length =
        room.players.length := by
  unfold commitMove
  obtain ⟨g', hg', h1, h2, h3, h4, h5⟩ := advance_then_finalize
    { room with players := room.players.set idx p1, game := some g2 } g2 now rfl
  refine ⟨g', hg', ?_, ?_, h3, h4, ?_⟩
  · rw [h1]
    simp
  · rw [h2]
    simp only [List.length_set]
    exact getD_set_id room.players idx _ p1 hid
  · rw [h5]
    simp

/-- C8: every successful move — play, pass or exchange (a timer-forced pass
goes through the same pass branch) — advances the turn exactly once:
turnIndex becomes (turnIndex + 1) mod the player count, the active player is
the one now at that index, the deadline is now + turnDurationMs, and the
version grows by exactly 1. -/
theorem c8_advance_turn (room : Room) (playerId : String) (action : Action)
    (placements : List MovePlacement) (ids : List String)
    (dict : String → Bool) (rand : Nat → Nat) (now : Nat)
    (mv : MoveSummary) (ended : Bool) (r' : Room) (g : GameState)
    (hg : room.game = some g)
    (h : playMove room playerId action placements ids dict rand now =
      (.ok (mv, ended), r')) :
    ∃ g', r'.game = some g' ∧
      g'.turnIndex = (g.turnIndex + 1) % room.players.length ∧
      g'.activePlayerId =
        (room.players.getD ((g.turnIndex + 1) % room.players.length)
          default).id ∧
      g'.turnEndsAt = now + g.turnDurationMs ∧
      g'.version = g.version + 1 ∧
      r'.players.length = room.players.length := by
  rcases playMove_ok_cases room playerId action placements ids dict rand now
      mv ended r' h with ⟨g0, idx, hg0, hidx, hact, hbr⟩
  have hgg : g0 = g := by
    rw [hg] at hg0
    injection hg0 with h'
    exact h'.symm
  subst hgg
  rcases hbr with ⟨_, happ⟩ | ⟨_, _, _, _, happ⟩ | ⟨pd, _, hval, happ⟩
  · unfold applyPass at happ
    have hr' := congrArg (fun t : MoveSummary × Room × Bool => t.2.1) happ
    dsimp only at hr'
    rw [← hr']
    exact commitMove_spec room idx _ _ now rfl
  · unfold applyExchange at happ
    have hr' := congrArg (fun t : MoveSummary × Room × Bool => t.2.1) happ
    dsimp only at hr'
    rw [← hr']
    exact commitMove_spec room idx _ _ now rfl
  · unfold applyPlay at happ
    have hr' := congrArg (fun t : MoveSummary × Room × Bool => t.2.1) happ
    dsimp only at hr'
    rw [← hr']
    exact commitMove_spec room idx _ _ now rfl

/-- Witness for C8: a concrete pass move; p1's game moves from version 3 to
version 4 and back to turn index 0 in the one-player room. -/
theorem c8_advance_turn_witness :
    ∃ g', ((playMove roomT "p1" .pass [] [] dictAll randZero 99).2).game =
        some g' ∧
      g'.turnIndex = (gameT.turnIndex + 1) % roomT.players.length ∧
      g'.activePlayerId =
        (roomT.players.getD ((gameT.turnIndex + 1) % roomT.players.length)
          default).id ∧
      g'.turnEndsAt = 99 + gameT.turnDurationMs ∧
      g'.version = gameT.version + 1 ∧
      ((playMove roomT "p1" .pass [] [] dictAll randZero 99).2).players.length =
        roomT.players.length :=
  c8_advance_turn roomT "p1" .pass [] [] dictAll randZero 99
    { playerId := "p1", action := .pass, words := [], score := 0,
      placements := [], turnNumber := 4, createdAt := 99 } false
    ((playMove roomT "p1" .pass [] [] dictAll randZero 99).2) gameT rfl
    (by decide)

/-- C7 (amended): whenever playMove rejects a move, the room it hands back is
exactly the input room — board, bag, racks, scores, stats, log, pass counter,
turn pointer and version untouched — and the invalidMove reason the handler
sends is the error code, except for INVALID_WORD whose reason is the
offending word itself. -/
theorem c7_error_no_mutation (room : Room) (playerId : String)
    (action : Action) (placements : List MovePlacement) (ids : List String)
    (dict : String → Bool) (rand : Nat → Nat) (now : Nat)
    (e : PlayErr) (r' : Room)
    (h : playMove room playerId action placements ids dict rand now =
      (.error e, r')) :
    r' = room ∧
    invalidMoveReason e =
      (match e with
       | .INVALID_WORD w => if w == "" then "INVALID_WORD" else w
       | _ => errCode e) := by
  refine ⟨?_, by cases e <;> rfl⟩
  unfold playMove at h
  rcases hgm : room.game with _ | g
  · rw [hgm] at h
    dsimp only at h
    injection h with h1 h2
    exact h2.symm
  rw [hgm] at h
  rcases hidx : room.players.findIdx? (fun p => p.id == playerId) with _ | idx
  · rw [hidx] at h
    dsimp only at h
    injection h with h1 h2
    exact h2.symm
  rw [hidx] at h
  dsimp only at h
  by_cases hne : g.activePlayerId ≠ playerId
  · rw [if_pos hne] at h
    injection h with h1 h2
    exact h2.symm
  rw [if_neg hne] at h
  cases action with
  | pass =>
    simp only at h
    simp at h
  | exchange =>
    simp only at h
    by_cases hlen : (ids.length == 0) = true
    · rw [if_pos hlen] at h
      injection h with h1 h2
      exact h2.symm
    rw [if_neg hlen] at h
    by_cases hbag : g.bag.length < ids.length
    · rw [if_pos hbag] at h
      injection h with h1 h2
      exact h2.symm
    rw [if_neg hbag] at h
    rcases hown : ids.find? (fun i =>
        !((room.players.getD idx default).rack.any (fun t => t.id == i))) with _ | w
    · rw [hown] at h
      simp at h
    · rw [hown] at h
      injection h with h1 h2
      exact h2.symm
  | play =>
    simp only at h
    rcases hv : validatePlay g.board (room.players.getD idx default).rack
        placements dict with e0 | pd
    · rw [hv] at h
      injection h with h1 h2
      exact h2.symm
    · rw [hv] at h
      simp at h

/-- C7 counterexample: a rejected play whose word the dictionary refuses is
answered with the offending word "TS" as the invalidMove reason, not with
the error code "INVALID_WORD"; the room is untouched. -/
theorem c7_invalid_word_reason_counterexample :
    playMove roomT "p1" .play [plS56] [] dictNone randZero 99 =
      (.error (.INVALID_WORD "TS"), roomT) ∧
    invalidMoveReason (.INVALID_WORD "TS") = "TS" ∧
    ("TS" : String) ≠ "INVALID_WORD" ∧
    errCode (.INVALID_WORD "TS") = "INVALID_WORD" := by
  refine ⟨by decide, rfl, by decide, rfl⟩

/-- Witness for C7 at the concrete rejected play. -/
theorem c7_error_no_mutation_witness :
    roomT = roomT ∧
    invalidMoveReason (PlayErr.INVALID_WORD "TS") =
      (match PlayErr.INVALID_WORD "TS" with
       | .INVALID_WORD w => if w == "" then "INVALID_WORD" else w
       | _ => errCode (PlayErr.INVALID_WORD "TS")) :=
  c7_error_no_mutation roomT "p1" .play [plS56] [] dictNone randZero 99
    (.INVALID_WORD "TS") roomT (by decide)

/-- C9 fixture: Alice, already seated in the room, with stable id p1. -/
def c9Alice : Player :=
  { id := "p1", nickname := "Alice", connected := false, ready := false,
    score := 0, rack := [], stats := stats0 }

/-- C9 fixture: a waiting room containing Alice. -/
def c9Room : Room :=
  { id := "J", hostId := "p1", status := .waiting, maxPlayers := 4,
    players := [c9Alice], game := none, lastActivityAt := 0 }

/-- C9 fixture: the registry holding that room. -/
def c9Rooms : RoomMap := [("J", c9Room)]

/-- C9 counterexample: Alice reconnects to her own room with her own
nickname and playerId; the nickname check also scans her own seat, so
joinRoom fails with NICKNAME_TAKEN instead of re-attaching. -/
theorem c9_reattach_nickname_counterexample :
    joinRoom c9Rooms "J" "Alice" (some "p1") "fresh" 5 =
      .error .NICKNAME_TAKEN ∧
    (c9Room.players.map (fun p => p.id)).contains "p1" = true ∧
    (c9Room.players.map (fun p => p.nickname)).contains "Alice" = true := by
  refine ⟨by decide, by decide, by decide⟩

/-- C9 (amended): for a room that contains a player with the supplied
playerId, joinRoom runs its checks in order — full room, room not waiting,
case-insensitive nickname collision against every player including the
returning one — and only when all pass does it re-attach, returning the
existing player and leaving the player list unchanged (only lastActivityAt
is stamped); a returning player re-using their own current nickname is
therefore rejected NICKNAME_TAKEN. -/
theorem c9_join_room (rooms : RoomMap) (roomId nickname : String)
    (pid freshId : String) (now : Nat) (room : Room) (player : Player)
    (hlook : lookupRoom rooms roomId = some room)
    (hmem : room.players.find? (fun p => p.id == pid) = some player) :
    (room.maxPlayers ≤ room.players.length →
      joinRoom rooms roomId nickname (some pid) freshId now =
        .error .ROOM_FULL) ∧
    (¬ room.maxPlayers ≤ room.players.length → room.status ≠ .waiting →
      joinRoom rooms roomId nickname (some pid) freshId now =
        .error .ROOM_NOT_JOINABLE) ∧
    (¬ room.maxPlayers ≤ room.players.length → room.status = .waiting →
      (∃ q ∈ room.players, strToLower q.nickname = strToLower nickname) →
      joinRoom rooms roomId nickname (some pid) freshId now =
        .error .NICKNAME_TAKEN) ∧
    (¬ room.maxPlayers ≤ room.players.length → room.status = .waiting →
      (∀ q ∈ room.players, strToLower q.nickname ≠ strToLower nickname) →
      joinRoom rooms roomId nickname (some pid) freshId now =
        .ok ({ room with lastActivityAt := now }, player)) := by
  unfold joinRoom
  rw [hlook]
  dsimp only
  refine ⟨?_, ?_, ?_, ?_⟩
  · intro hfull
    rw [if_pos hfull]
  · intro hfull hst
    rw [if_neg hfull, if_pos hst]
  · intro hfull hst hcol
    rw [if_neg hfull, if_neg (by simp [hst])]
    rw [if_pos ?_]
    rw [List.any_eq_true]
    rcases hcol with ⟨q, hq, hqe⟩
    exact ⟨q, hq, by simpa using hqe⟩
  · intro hfull hst hnc
    rw [if_neg hfull, if_neg (by simp [hst]), if_neg ?_]
    swap
    · rw [List.any_eq_true]
      rintro ⟨q, hq, hqe⟩
      exact hnc q hq (by simpa using hqe)
    · rw [show (some pid).bind
          (fun p => room.players.find? (fun q => q.id == p)) =
          some player from by simpa using hmem]

/-- Witness for C9: Alice's seat is found by id, and the amended behaviour is
instantiated at her room with the fresh nickname "Alicia". -/
theorem c9_join_room_witness :
    (c9Room.maxPlayers ≤ c9Room.players.length →
      joinRoom c9Rooms "J" "Alicia" (some "p1") "f" 5 =
        .error .ROOM_FULL) ∧
    (¬ c9Room.maxPlayers ≤ c9Room.players.length → c9Room.status ≠ .waiting →
      joinRoom c9Rooms "J" "Alicia" (some "p1") "f" 5 =
        .error .ROOM_NOT_JOINABLE) ∧
    (¬ c9Room.maxPlayers ≤ c9Room.players.length → c9Room.status = .waiting →
      (∃ q ∈ c9Room.players, strToLower q.nickname = strToLower "Alicia") →
      joinRoom c9Rooms "J" "Alicia" (some "p1") "f" 5 =
        .error .NICKNAME_TAKEN) ∧
    (¬ c9Room.maxPlayers ≤ c9Room.players.length → c9Room.status = .waiting →
      (∀ q ∈ c9Room.players, strToLower q.nickname ≠ strToLower "Alicia") →
      joinRoom c9Rooms "J" "Alicia" (some "p1") "f" 5 =
        .ok ({ c9Room with lastActivityAt := 5 }, c9Alice)) :=
  c9_join_room c9Rooms "J" "Alicia" "p1" "f" 5 c9Room c9Alice (by decide)
    (by decide)

/-- Spec: the uppercased query has the same length as the candidate word and
matches it at every position that is not '?' ('?' matches any character). -/
def specWildcardMatch (W v : String) : Prop :=
  v.length = W.length ∧
  ∀ i, i < W.length →
    W.data[i]? = some '?' ∨ v.data[i]? = W.data[i]?

instance (W v : String) : Decidable (specWildcardMatch W v) := by
  unfold specWildcardMatch; infer_instance

/-- Looking a bucket up after one bucketAdd. -/
theorem bucketGet_bucketAdd (m : ByLength) (n k : Nat) (w : String) :
    bucketGet (bucketAdd m k w) n =
      if k = n then some ((bucketGet m n).getD [] ++ [w])
      else bucketGet m n := by
  induction m with
  | nil =>
    by_cases hkn : k = n
    · subst hkn
      simp [bucketAdd, bucketGet]
    · simp [bucketAdd, bucketGet, hkn, Ne.symm hkn]
  | cons e rest ih =>
    rcases e with ⟨k', ws⟩
    by_cases hk : k' = k
    · subst hk
      by_cases hkn : k' = n
      · subst hkn
        simp [bucketAdd, bucketGet]
      · simp [bucketAdd, bucketGet, hkn]
    · by_cases hk'n : k' = n
      · subst hk'n
        have hstep : bucketAdd ((k', ws) :: rest) k w =
            (k', ws) :: bucketAdd rest k w := by
          simp [bucketAdd, hk]
        rw [hstep, if_neg (fun hkn => hk hkn.symm)]
        simp [bucketGet, List.find?_cons]
      · have hstep : bucketAdd ((k', ws) :: rest) k w =
            (k', ws) :: bucketAdd rest k w := by
          simp [bucketAdd, hk]
        have hcons : ∀ m' : ByLength, bucketGet ((k', ws) :: m') n =
            bucketGet m' n := by
          intro m'
          simp [bucketGet, List.find?_cons, hk'n]
        rw [hstep, hcons, hcons, ih]
/-- Membership in a bucket of the built dictionary characterizes the loaded
words of that length. -/
theorem mem_bucketGet (words : List String) (n : Nat) (v : String) :
    v ∈ (bucketGet (buildByLength words) n).getD [] ↔
      v ∈ words ∧ v.length = n := by
  unfold buildByLength
  suffices h : ∀ m : ByLength,
      (v ∈ (bucketGet (words.foldl (fun m w => bucketAdd m w.length w) m) n).getD [] ↔
        v ∈ (bucketGet m n).getD [] ∨ (v ∈ words ∧ v.length = n)) by
    rw [h []]
    simp [bucketGet]
  induction words with
  | nil => intro m; simp
  | cons w rest ih =>
    intro m
    rw [List.foldl_cons, ih (bucketAdd m w.length w)]
    rw [bucketGet_bucketAdd]
    by_cases hw : w.length = n
    · rw [if_pos hw]
      constructor
      · rintro (h | h)
        · rcases List.mem_append.1 h with h' | h'
          · exact Or.inl h'
          · rcases List.mem_singleton.1 h' with rfl
            exact Or.inr ⟨List.mem_cons_self _ _, hw⟩
        · exact Or.inr ⟨List.mem_cons_of_mem _ h.1, h.2⟩
      · rintro (h | ⟨h, hlen⟩)
        · exact Or.inl (List.mem_append.2 (Or.inl h))
        · rcases List.mem_cons.1 h with rfl | h'
          · exact Or.inl (List.mem_append.2 (Or.inr (List.mem_singleton.2 rfl)))
          · exact Or.inr ⟨h', hlen⟩
    · rw [if_neg hw]
      constructor
      · rintro (h | h)
        · exact Or.inl h
        · exact Or.inr ⟨List.mem_cons_of_mem _ h.1, h.2⟩
      · rintro (h | ⟨h, hlen⟩)
        · exact Or.inl h
        · rcases List.mem_cons.1 h with rfl | h'
          · exact absurd hlen hw
          · exact Or.inr ⟨h', hlen⟩

/-- The wildcard scan succeeds exactly when every position matches or is a
wildcard. -/
theorem wildcardMatches_iff (W v : List Char) :
    wildcardMatches W v = true ↔
      ∀ i, i < W.length → W[i]? = some '?' ∨ v[i]? = W[i]? := by
  unfold wildcardMatches
  rw [List.all_eq_true]
  constructor
  · intro h i hi
    have hh := h i (List.mem_range.2 hi)
    rcases hWi : W[i]? with _ | c
    · rw [List.getElem?_eq_getElem hi] at hWi
      cases hWi
    · rw [hWi] at hh
      rcases hvi : v[i]? with _ | ch
      · rw [hvi] at hh
        simp only [Bool.or_eq_true, beq_iff_eq] at hh
        rcases hh with h' | h'
        · exact Or.inl (by rw [h'])
        · cases h'
      · rw [hvi] at hh
        simp only [Bool.or_eq_true, beq_iff_eq] at hh
        rcases hh with h' | h'
        · exact Or.inl (by rw [h'])
        · exact Or.inr (by rw [h'])
  · intro h i hi
    have hi' := List.mem_range.1 hi
    rcases hWi : W[i]? with _ | c
    · rfl
    · rcases h i hi' with h' | h'
      · rw [hWi] at h'
        injection h' with h''
        simp [h'']
      · rw [hWi] at h'
        rcases hvi : v[i]? with _ | ch
        · rw [hvi] at h'
          cases h'
        · rw [hvi] at h'
          injection h' with h''
          simp [h'']

/-- An exact (wildcard-free) query matches a candidate of the same length
iff they are equal. -/
theorem specWildcardMatch_no_wildcard {W v : String}
    (hnw : strContains W '?' = false) :
    specWildcardMatch W v ↔ v = W := by
  constructor
  · rintro ⟨hlen, hpos⟩
    have hdata : v.data = W.data := by
      apply List.ext_getElem?
      intro i
      by_cases hi : i < W.length
      · rcases hpos i hi with h | h
        · exfalso
          have hmem : '?' ∈ W.data := by
            rcases List.getElem?_eq_some_iff.1 h with ⟨hlt, hq⟩
            exact hq ▸ List.getElem_mem hlt
          have helem : W.data.elem '?' = true := List.elem_iff.2 hmem
          unfold strContains List.contains at hnw
          rw [helem] at hnw
          cases hnw
        · exact h
      · have h1 : W.data.length ≤ i := Nat.le_of_not_lt hi
        have h2 : v.data.length ≤ i := by
          have hv : v.length ≤ i := by
            rw [hlen]
            exact Nat.le_of_not_lt hi
          exact hv
        rw [List.getElem?_eq_none h1, List.getElem?_eq_none h2]
    exact congrArg String.mk hdata
  · rintro rfl
    exact ⟨rfl, fun i _ => Or.inr rfl⟩

/-- C10: with an unreadable dictionary file WordValidatorFile rejects every
query (never throws, never falls back to accepting); with a loaded file,
isWordValid accepts exactly the queries whose uppercase form has the length
of some loaded word and agrees with it at every non-'?' position. -/
theorem c10_word_validator :
    (∀ w, isWordValid (mkFileValidator none) w = false) ∧
    (∀ raw w, isWordValid (mkFileValidator (some raw)) w = true ↔
      ∃ v ∈ processWords raw, specWildcardMatch (strToUpper w) v) := by
  constructor
  · intro w
    rfl
  · intro raw w
    unfold isWordValid mkFileValidator
    dsimp only
    rcases hbg : bucketGet (buildByLength (processWords raw))
        (strToUpper w).length with _ | pool
    · simp only []
      constructor
      · intro h
        cases h
      · rintro ⟨v, hv, hlen, _⟩
        have := (mem_bucketGet (processWords raw) (strToUpper w).length v).2
          ⟨hv, hlen⟩
        rw [hbg] at this
        cases this
    · have hpool : ∀ v, v ∈ pool ↔
          v ∈ processWords raw ∧ v.length = (strToUpper w).length := by
        intro v
        rw [← mem_bucketGet (processWords raw) (strToUpper w).length v, hbg]
        rfl
      rcases hq : strContains (strToUpper w) '?' with _ | _
      · simp only [hq, Bool.not_false, if_pos rfl]
        constructor
        · intro h
          have hmem : strToUpper w ∈ pool := by
            unfold List.contains at h
            exact List.elem_iff.1 h
          refine ⟨strToUpper w, ((hpool _).1 hmem).1, ?_⟩
          exact (specWildcardMatch_no_wildcard hq).2 rfl
        · rintro ⟨v, hv, hm⟩
          have hveq : v = strToUpper w := (specWildcardMatch_no_wildcard hq).1 hm
          have hmem : strToUpper w ∈ pool := (hpool _).2 ⟨hveq ▸ hv, rfl⟩
          unfold List.contains
          exact List.elem_iff.2 hmem
      · simp only [hq, Bool.not_true, Bool.false_eq_true, if_false]
        rw [List.any_eq_true]
        constructor
        · rintro ⟨v, hv, hm⟩
          refine ⟨v, ((hpool v).1 hv).1, ((hpool v).1 hv).2, ?_⟩
          intro i hi
          exact (wildcardMatches_iff (strToUpper w).data v.data).1 hm i hi
        · rintro ⟨v, hv, hlen, hpos⟩
          refine ⟨v, (hpool v).2 ⟨hv, hlen⟩, ?_⟩
          rw [wildcardMatches_iff]
          intro i hi
          exact hpos i hi

/-- Count after a set, in additive form. -/
theorem count_set_add {α} [DecidableEq α] (l : List α) (i : Nat) (a b : α)
    (h : i < l.length) :
    (l.set i a).count b + (if l[i] = b then 1 else 0) =
      l.count b + (if a = b then 1 else 0) := by
  induction l generalizing i with
  | nil => cases h
  | cons c t ih =>
    cases i with
    | zero =>
      simp only [List.set_cons_zero, List.getElem_cons_zero, List.count_cons]
      by_cases hc : c = b <;> by_cases ha : a = b <;> simp [hc, ha] <;> omega
    | succ j =>
      simp only [List.set_cons_succ, List.getElem_cons_succ, List.count_cons]
      have := ih j (by simpa using Nat.lt_of_succ_lt_succ h)
      by_cases hc : c = b <;> simp [hc] <;> omega

/-- The destructuring swap permutes the list when both indices are in
range. -/
theorem listSwap_perm {α} [DecidableEq α] [Inhabited α] (l : List α)
    (i j : Nat) (hi : i < l.length) (hj : j < l.length) :
    (listSwap l i j).Perm l := by
  rw [List.perm_iff_count]
  intro b
  unfold listSwap
  rw [getD_eq_getElem' hi, getD_eq_getElem' hj]
  have h1 := count_set_add l i (l[j]) b hi
  have h2 := count_set_add (l.set i (l[j])) j (l[i]) b (by simpa using hj)
  have hj2 : j < (l.set i (l[j])).length := by simpa using hj
  have h3 : (l.set i (l[j]))[j] = l[j] := by
    rw [List.getElem_set]
    split <;> rfl
  rw [h3] at h2
  by_cases hb1 : l[i] = b <;> by_cases hb2 : l[j] = b
  · rw [if_pos hb1, if_pos hb2] at h1
    rw [if_pos hb2, if_pos hb1] at h2
    omega
  · rw [if_pos hb1, if_neg hb2] at h1
    rw [if_neg hb2, if_pos hb1] at h2
    omega
  · rw [if_neg hb1, if_pos hb2] at h1
    rw [if_pos hb2, if_neg hb1] at h2
    omega
  · rw [if_neg hb1, if_neg hb2] at h1
    rw [if_neg hb2, if_neg hb1] at h2
    omega

/-- The Fisher–Yates loop permutes the list. -/
theorem shuffleGo_perm {α} [DecidableEq α] [Inhabited α] (rand : Nat → Nat)
    (l : List α) (n : Nat) (hn : n < l.length) :
    (shuffleGo rand l n).Perm l := by
  induction n generalizing l with
  | zero => exact List.Perm.refl l
  | succ i ih =>
    unfold shuffleGo
    have hlen : (listSwap l (i + 1) (rand (i + 1) % (i + 2))).length =
        l.length := by
      simp [listSwap]
    have hsw : (listSwap l (i + 1) (rand (i + 1) % (i + 2))).Perm l :=
      listSwap_perm l _ _ hn
        (Nat.lt_of_lt_of_le (Nat.mod_lt _ (by omega)) (by omega))
    exact (ih _ (by rw [hlen]; omega)).trans hsw

/-- shuffle permutes the bag. -/
theorem shuffle_perm {α} [DecidableEq α] [Inhabited α] (rand : Nat → Nat)
    (l : List α) : (shuffle rand l).Perm l := by
  unfold shuffle
  rcases hl : l.length with _ | n
  · have : l = [] := List.length_eq_zero.1 hl
    subst this
    exact List.Perm.refl _
  · apply shuffleGo_perm
    omega

/-- The bag splits as remainder plus reversed draw. -/
theorem drawTiles_append (bag : List Tile) (n : Nat) :
    (drawTiles bag n).2 ++ (drawTiles bag n).1.reverse = bag := by
  unfold drawTiles
  dsimp only
  rw [← List.reverse_append]
  conv_rhs => rw [← List.reverse_reverse bag]
  congr 1
  exact List.take_append_drop n bag.reverse

/-- Number of drawn tiles. -/
theorem drawTiles_fst_length (bag : List Tile) (n : Nat) :
    (drawTiles bag n).1.length = min n bag.length := by
  simp [drawTiles]

/-- Size of the remaining bag. -/
theorem drawTiles_snd_length (bag : List Tile) (n : Nat) :
    (drawTiles bag n).2.length = bag.length - n := by
  simp [drawTiles]

/-- Filtering tiles by id then projecting the ids equals projecting then
filtering. -/
theorem map_filter_ids (rack : List Tile) (ids : List String) :
    (rack.filter (fun t => ids.contains t.id)).map (fun t => t.id) =
      (rack.map (fun t => t.id)).filter (fun i => ids.contains i) := by
  induction rack with
  | nil => rfl
  | cons t rest ih =>
    by_cases ht : ids.contains t.id = true
    · rw [List.filter_cons, List.map_cons, List.filter_cons]
      rw [ht]
      rw [if_pos rfl, if_pos rfl]
      rw [List.map_cons, ih]
    · rw [List.filter_cons, List.map_cons, List.filter_cons]
      rw [if_neg ht, if_neg ht]
      exact ih

/-- Filtering a rack by a duplicate-free id list that is contained in the
rack's (duplicate-free) ids keeps exactly one tile per id. -/
theorem length_filter_ids {rack : List Tile} {ids : List String}
    (hnr : (rack.map (fun t => t.id)).Nodup) (hni : ids.Nodup)
    (hsub : ∀ i ∈ ids, ∃ t ∈ rack, t.id = i) :
    (rack.filter (fun t => ids.contains t.id)).length = ids.length := by
  have hmapfil := map_filter_ids rack ids
  have h2 : ((rack.map (fun t => t.id)).filter
      (fun i => ids.contains i)).Nodup := hnr.filter _
  have h3 : ∀ i, i ∈ (rack.map (fun t => t.id)).filter
      (fun i => ids.contains i) ↔ i ∈ ids := by
    intro i
    rw [List.mem_filter]
    constructor
    · rintro ⟨_, hc⟩
      exact List.elem_iff.1 hc
    · intro hin
      refine ⟨?_, List.elem_iff.2 hin⟩
      rcases hsub i hin with ⟨t, ht, rfl⟩
      exact List.mem_map.2 ⟨t, ht, rfl⟩
  have h4 : ((rack.map (fun t => t.id)).filter
      (fun i => ids.contains i)).Perm ids := by
    apply (List.perm_ext_iff_of_nodup h2 hni).2
    exact h3
  calc (rack.filter (fun t => ids.contains t.id)).length
      = ((rack.filter (fun t => ids.contains t.id)).map
          (fun t => t.id)).length := by rw [List.length_map]
    _ = ((rack.map (fun t => t.id)).filter (fun i => ids.contains i)).length := by
          rw [hmapfil]
    _ = ids.length := h4.length_eq

/-- The game advanceTurn leaves behind, over the already-updated player
list. -/
def advancedGame (players1 : List Player) (g2 : GameState) (now : Nat) :
    GameState :=
  { g2 with
    turnIndex := (g2.turnIndex + 1) % players1.length,
    activePlayerId :=
      (players1.getD ((g2.turnIndex + 1) % players1.length) default).id,
    turnEndsAt := now + g2.turnDurationMs,
    version := g2.version + 1 }

/-- The game state commitMove stores. -/
theorem commitMove_fst_game (room : Room) (idx : Nat) (p1 : Player)
    (g2 : GameState) (now : Nat) :
    (commitMove room idx p1 g2 now).1.game =
      some (advancedGame (room.players.set idx p1) g2 now) := by
  unfold commitMove
  rw [checkAndFinalize_game]
  unfold advanceTurn advancedGame
  dsimp only

/-- commitMove preserves the player count. -/
theorem commitMove_players_length (room : Room) (idx : Nat) (p1 : Player)
    (g2 : GameState) (now : Nat) :
    (commitMove room idx p1 g2 now).1.players.length =
      room.players.length := by
  unfold commitMove
  rw [checkAndFinalize_players_length]
  unfold advanceTurn
  dsimp only
  rw [List.length_set]

/-- Mapping a score-only change over the players leaves each seat's rack. -/
theorem getD_map_rack (players : List Player) (j : Nat) (f : Player → Player)
    (hf : ∀ p, (f p).rack = p.rack) :
    ((players.map f).getD j default).rack = (players.getD j default).rack := by
  by_cases hj : j < players.length
  · rw [getD_eq_getElem' (by simpa using hj), getD_eq_getElem' hj,
      List.getElem_map]
    exact hf _
  · rw [List.getD_eq_getElem?_getD, List.getD_eq_getElem?_getD,
      List.getElem?_eq_none (by simpa using Nat.le_of_not_lt hj),
      List.getElem?_eq_none (Nat.le_of_not_lt hj)]

/-- Replacing one player by one with the same rack leaves each seat's
rack. -/
theorem getD_set_rack (players : List Player) (idx j : Nat) (p1 : Player)
    (hp : p1.rack = (players.getD idx default).rack) :
    ((players.set idx p1).getD j default).rack =
      (players.getD j default).rack := by
  by_cases hj : j < players.length
  · rw [getD_eq_getElem' (by simpa using hj), getD_eq_getElem' hj,
      List.getElem_set]
    split
    · rename_i hij
      subst hij
      rw [hp, getD_eq_getElem' hj]
    · rfl
  · rw [List.getD_eq_getElem?_getD, List.getD_eq_getElem?_getD,
      List.getElem?_eq_none (by simpa using Nat.le_of_not_lt hj),
      List.getElem?_eq_none (Nat.le_of_not_lt hj)]

/-- Finalization only rewrites scores: every seat keeps its rack. -/
theorem checkAndFinalize_rack (r : Room) (j : Nat) :
    ((checkAndFinalizeIfEnded r).1.players.getD j default).rack =
      ((r.players.getD j default).rack) := by
  unfold checkAndFinalizeIfEnded
  rcases hgm : r.game with _ | g
  · rfl
  · dsimp only
    split
    · rcases hfi : r.players.findIdx? (fun p => p.rack.isEmpty) with _ | fi
      · simp only [hfi]
        exact getD_map_rack _ _ _ (fun p => rfl)
      · simp only [hfi]
        refine Eq.trans (getD_set_rack _ fi j _ rfl) ?_
        exact getD_map_rack _ _ _ (fun p => rfl)
    · rfl

/-- The rack commitMove leaves at the updated seat. -/
theorem commitMove_fst_rack (room : Room) (idx : Nat) (p1 : Player)
    (g2 : GameState) (now : Nat) (hlt : idx < room.players.length) :
    ((commitMove room idx p1 g2 now).1.players.getD idx default).rack =
      p1.rack := by
  unfold commitMove
  rw [checkAndFinalize_rack]
  have hadv : (advanceTurn
      { room with players := room.players.set idx p1, game := some g2 }
      now).players = room.players.set idx p1 := by
    unfold advanceTurn
    dsimp only
  rw [hadv, getD_eq_getElem' (by simpa using hlt),
    List.getElem_set_self (by simpa using hlt)]

/-- C6 exchange fixture: the active player holds the single B tile. -/
def c6Player : Player :=
  { id := "p1", nickname := "Ex", connected := true, ready := true,
    score := 0, rack := [tileB], stats := stats0 }

/-- C6 exchange fixture: bag holds the single A tile. -/
def c6ExGame : GameState :=
  { board := emptyBoard, bag := [tileA], turnIndex := 0,
    activePlayerId := "p1", turnEndsAt := 0, turnDurationMs := 120000,
    lastMove := none, log := [], consecutivePasses := 0, startedAt := 0,
    version := 3 }

/-- C6 exchange fixture room. -/
def c6ExRoom : Room :=
  { id := "RX", hostId := "p1", status := .playing, maxPlayers := 4,
    players := [c6Player], game := some c6ExGame, lastActivityAt := 0 }

/-- C6 counterexample: exchanging the B tile against a bag holding only A,
with a randomness draw that swaps the two, succeeds and leaves the bag as
[B] — a different multiset from the original [A]. -/
theorem c6_exchange_bag_counterexample :
    (playMove c6ExRoom "p1" .exchange [] ["tB"] dictAll randZero 99).1 =
      .ok ({ playerId := "p1", action := .exchange, words := [], score := 0,
             placements := [], turnNumber := 4, createdAt := 99 }, false) ∧
    ((playMove c6ExRoom "p1" .exchange [] ["tB"] dictAll randZero
        99).2.game.map (fun g => g.bag)).getD [] = [tileB] ∧
    ¬ (([tileB] : List Tile).Perm [tileA]) ∧
    c6ExGame.bag = [tileA] := by
  refine ⟨by decide, by decide, by decide, rfl⟩

/-- C6 (amended): a successful exchange of duplicate-free tile ids from a
duplicate-free rack leaves the rack size unchanged and the bag size
unchanged, and preserves the multiset union of bag and rack; the bag's own
multiset may change (see the counterexample), because the re-draw happens
after the returned tiles were shuffled in. -/
theorem c6_exchange_invariants (room : Room) (playerId : String)
    (ids : List String) (dict : String → Bool) (rand : Nat → Nat) (now : Nat)
    (mv : MoveSummary) (ended : Bool) (r' : Room) (g : GameState) (idx : Nat)
    (hg : room.game = some g)
    (hidx : room.players.findIdx? (fun p => p.id == playerId) = some idx)
    (hnr : ((room.players.getD idx default).rack.map (fun t => t.id)).Nodup)
    (hni : ids.Nodup)
    (h : playMove room playerId .exchange [] ids dict rand now =
      (.ok (mv, ended), r')) :
    ∃ g', r'.game = some g' ∧
      (r'.players.getD idx default).rack.length =
        (room.players.getD idx default).rack.length ∧
      g'.bag.length = g.bag.length ∧
      (g'.bag ++ (r'.players.getD idx default).rack).Perm
        (g.bag ++ (room.players.getD idx default).rack) := by
  obtain ⟨g0, idx0, hg0, hidx0, hact, hbr⟩ := playMove_ok_cases room playerId
    .exchange [] ids dict rand now mv ended r' h
  have hgg : g = g0 := by
    rw [hg] at hg0
    injection hg0
  subst hgg
  have hii : idx = idx0 := by
    rw [hidx] at hidx0
    injection hidx0
  subst hii
  rcases hbr with ⟨hc, _⟩ | ⟨_, hlen0, hbag0, hown, happ⟩ | ⟨pd, hc, _, _⟩
  · cases hc
  · obtain ⟨hlt, _, _⟩ := List.findIdx?_eq_some_iff_getElem.1 hidx
    unfold applyExchange at happ
    dsimp only at happ
    have hr' := congrArg (fun t : MoveSummary × Room × Bool => t.2.1) happ
    dsimp only at hr'
    have hsub : ∀ i ∈ ids, ∃ t ∈ (room.players.getD idx default).rack,
        t.id = i := by
      intro i hin
      have hfn := List.find?_eq_none.1 hown i hin
      simp only [Bool.not_eq_true', Bool.not_eq_false] at hfn
      rcases List.any_eq_true.1 hfn with ⟨t, ht, hte⟩
      exact ⟨t, ht, by simpa using hte⟩
    have hTR : ((room.players.getD idx default).rack.filter
        (fun t => ids.contains t.id)).length = ids.length :=
      length_filter_ids hnr hni hsub
    have hsplitperm := List.filter_append_perm (fun t => ids.contains t.id)
      (room.players.getD idx default).rack
    have hsplit := hsplitperm.length_eq
    rw [List.length_append] at hsplit
    have hshuf := shuffle_perm rand (g.bag ++
      (room.players.getD idx default).rack.filter (fun t => ids.contains t.id))
    have hb1len := hshuf.length_eq
    rw [List.length_append] at hb1len
    have hdlen : ((drawTiles (shuffle rand (g.bag ++
        (room.players.getD idx default).rack.filter
          (fun t => ids.contains t.id))) ids.length).1).length = ids.length := by
      rw [drawTiles_fst_length]
      omega
    have hb2len : ((drawTiles (shuffle rand (g.bag ++
        (room.players.getD idx default).rack.filter
          (fun t => ids.contains t.id))) ids.length).2).length =
        g.bag.length := by
      rw [drawTiles_snd_length]
      omega
    have pbag := drawTiles_append (shuffle rand (g.bag ++
      (room.players.getD idx default).rack.filter
        (fun t => ids.contains t.id))) ids.length
    rw [← hr']
    rw [commitMove_fst_game]
    refine ⟨_, rfl, ?_, ?_, ?_⟩
    · rw [commitMove_fst_rack _ _ _ _ _ hlt]
      show ((room.players.getD idx default).rack.filter
          (fun t => !(ids.contains t.id)) ++
        (drawTiles (shuffle rand (g.bag ++
          (room.players.getD idx default).rack.filter
            (fun t => ids.contains t.id))) ids.length).1).length =
        (room.players.getD idx default).rack.length
      rw [List.length_append]
      omega
    · exact hb2len
    · rw [commitMove_fst_rack _ _ _ _ _ hlt]
      show ((drawTiles (shuffle rand (g.bag ++
          (room.players.getD idx default).rack.filter
            (fun t => ids.contains t.id))) ids.length).2 ++
        ((room.players.getD idx default).rack.filter
          (fun t => !(ids.contains t.id)) ++
        (drawTiles (shuffle rand (g.bag ++
          (room.players.getD idx default).rack.filter
            (fun t => ids.contains t.id))) ids.length).1)).Perm
        (g.bag ++ (room.players.getD idx default).rack)
      have step1 : ((drawTiles (shuffle rand (g.bag ++
          (room.players.getD idx default).rack.filter
            (fun t => ids.contains t.id))) ids.length).2 ++
          ((room.players.getD idx default).rack.filter
            (fun t => !(ids.contains t.id)) ++
          (drawTiles (shuffle rand (g.bag ++
            (room.players.getD idx default).rack.filter
              (fun t => ids.contains t.id))) ids.length).1)).Perm
          (((drawTiles (shuffle rand (g.bag ++
            (room.players.getD idx default).rack.filter
              (fun t => ids.contains t.id))) ids.length).2 ++
          ((drawTiles (shuffle rand (g.bag ++
            (room.players.getD idx default).rack.filter
              (fun t => ids.contains t.id))) ids.length).1.reverse)) ++
          ((room.players.getD idx default).rack.filter
            (fun t => !(ids.contains t.id)))) := by
        rw [List.append_assoc]
        apply List.Perm.append_left
        exact (List.perm_append_comm).trans
          (List.Perm.append_right _ (List.reverse_perm _).symm)
      refine step1.trans ?_
      rw [pbag]
      refine (List.Perm.append_right _ hshuf).trans ?_
      rw [List.append_assoc]
      exact List.Perm.append_left _ hsplitperm

  · cases hc

/-- C6 amended-claim witness: exchanging the B tile out of the rack [B]
against the bag [A] keeps rack size 1 and bag size 1 and preserves the
bag-plus-rack multiset. -/
theorem c6_exchange_invariants_witness :
    ∃ g', ((playMove c6ExRoom "p1" .exchange [] ["tB"] dictAll randZero
        99).2).game = some g' ∧
      (((playMove c6ExRoom "p1" .exchange [] ["tB"] dictAll randZero
          99).2).players.getD 0 default).rack.length =
        (c6ExRoom.players.getD 0 default).rack.length ∧
      g'.bag.length = c6ExGame.bag.length ∧
      (g'.bag ++ (((playMove c6ExRoom "p1" .exchange [] ["tB"] dictAll
          randZero 99).2).players.getD 0 default).rack).Perm
        (c6ExGame.bag ++ (c6ExRoom.players.getD 0 default).rack) :=
  c6_exchange_invariants c6ExRoom "p1" ["tB"] dictAll randZero 99
    { playerId := "p1", action := .exchange, words := [], score := 0,
      placements := [], turnNumber := 4, createdAt := 99 } false
    ((playMove c6ExRoom "p1" .exchange [] ["tB"] dictAll randZero 99).2)
    c6ExGame 0 rfl (by decide) (by decide) (by decide) (by decide)

/-- A well-formed 15×15 board. -/
def boardWF (b : Board) : Prop :=
  b.length = 15 ∧ ∀ row ∈ b, row.length = 15

instance (b : Board) : Decidable (boardWF b) := by
  unfold boardWF
  infer_instance

/-- getD with default [] at a valid index is the element there. -/
theorem getD_nil_eq_getElem {α} {l : List (List α)} {i : Nat}
    (h : i < l.length) : l.getD i [] = l[i] := by
  rw [List.getD_eq_getElem?_getD, List.getElem?_eq_getElem h]
  rfl

/-- Unfolding one placement of the board-update fold. -/
theorem applyPlacements_cons (b : Board) (q : MovePlacement)
    (rest : List MovePlacement) (rack : List Tile) (pid : String) (tn : Nat) :
    applyPlacements b (q :: rest) rack pid tn =
      applyPlacements
        (updateCell b q.x q.y (fun c =>
          { c with
            tile := some { toTile := (rack.find? (fun t => t.id == q.tileId)).getD default, fromPlayerId := pid, turnPlayed := tn },
            bonusUsed := if c.bonus.isSome then true else c.bonusUsed }))
        rest rack pid tn := rfl

/-- Updating one cell leaves every other cell alone. -/
theorem getCell_updateCell_ne (b : Board) (x y x' y' : Nat)
    (f : BoardCell → BoardCell) (hne : x ≠ x' ∨ y ≠ y') :
    getCell (updateCell b x' y' f) x y = getCell b x y := by
  simp only [getCell, updateCell, List.getD_eq_getElem?_getD]
  by_cases hy : y = y'
  · subst hy
    have hx : x' ≠ x := by
      rcases hne with h | h
      · exact fun hc => h hc.symm
      · exact absurd rfl h
    by_cases hl : y < b.length
    · rw [List.getElem?_set_self hl]
      simp only [Option.getD_some]
      rw [List.getElem?_set_ne hx]
    · rw [List.set_eq_of_length_le (by omega)]
  · rw [List.getElem?_set_ne (fun hc => hy hc.symm)]

/-- Updating a cell inside the board's extent stores the new cell there. -/
theorem getCell_updateCell_self (b : Board) (x y : Nat)
    (f : BoardCell → BoardCell) (hy : y < b.length)
    (hx : x < (b.getD y []).length) :
    getCell (updateCell b x y f) x y = f (getCell b x y) := by
  simp only [getCell, updateCell, List.getD_eq_getElem?_getD]
  rw [List.getD_eq_getElem?_getD] at hx
  rw [List.getElem?_set_self hy]
  simp only [Option.getD_some]
  rw [List.getElem?_set_self hx]
  rfl

/-- updateCell keeps a 15×15 board well formed. -/
theorem updateCell_boardWF (b : Board) (x y : Nat) (f : BoardCell → BoardCell)
    (hb : boardWF b) : boardWF (updateCell b x y f) := by
  by_cases hy : y < b.length
  · obtain ⟨hlen, hrow⟩ := hb
    constructor
    · rw [updateCell, List.length_set, hlen]
    · intro row hr
      rcases List.mem_or_eq_of_mem_set hr with h | h
      · exact hrow row h
      · subst h
        rw [List.length_set, getD_nil_eq_getElem hy]
        exact hrow _ (List.getElem_mem _)
  · have : updateCell b x y f = b := by
      unfold updateCell
      exact List.set_eq_of_length_le (by omega)
    rw [this]
    exact hb

/-- The board-update fold leaves cells no placement targets alone. -/
theorem getCell_applyPlacements_notmem (ps : List MovePlacement) (b : Board)
    (rack : List Tile) (pid : String) (tn : Nat) (x y : Nat)
    (hnm : ∀ q ∈ ps, ¬(q.x = x ∧ q.y = y)) :
    getCell (applyPlacements b ps rack pid tn) x y = getCell b x y := by
  induction ps generalizing b with
  | nil => rfl
  | cons q rest ih =>
    rw [applyPlacements_cons]
    rw [ih _ (fun p hp => hnm p (List.mem_cons_of_mem q hp))]
    apply getCell_updateCell_ne
    have hq := hnm q (List.mem_cons_self q rest)
    by_cases hx : q.x = x
    · right
      intro hc
      exact hq ⟨hx, hc.symm⟩
    · left
      exact fun hc => hx hc.symm

/-- The board-update fold keeps the board well formed. -/
theorem applyPlacements_boardWF (ps : List MovePlacement) (b : Board)
    (rack : List Tile) (pid : String) (tn : Nat) (hb : boardWF b) :
    boardWF (applyPlacements b ps rack pid tn) := by
  induction ps generalizing b with
  | nil => exact hb
  | cons q rest ih =>
    rw [applyPlacements_cons]
    exact ih _ (updateCell_boardWF _ _ _ _ hb)

/-- After the board-update fold, a targeted cell holds a copy of the rack
tile found by the placement's tile id, stamped with the playing player's id
and the turn number. -/
theorem getCell_applyPlacements_mem (ps : List MovePlacement) (b : Board)
    (rack : List Tile) (pid : String) (tn : Nat) (pl : MovePlacement)
    (hb : boardWF b) (hmem : pl ∈ ps)
    (hnd : (ps.map (fun q => (q.x, q.y))).Nodup)
    (hq : ∀ q ∈ ps, q.x < 15 ∧ q.y < 15) :
    (getCell (applyPlacements b ps rack pid tn) pl.x pl.y).tile =
      some { toTile := (rack.find? (fun t => t.id == pl.tileId)).getD default, fromPlayerId := pid, turnPlayed := tn } := by
  induction ps generalizing b with
  | nil => cases hmem
  | cons q rest ih =>
    rw [applyPlacements_cons]
    rw [List.map_cons, List.nodup_cons] at hnd
    rcases List.mem_cons.mp hmem with heq | hmem'
    · subst heq
      have hnot : ∀ p' ∈ rest, ¬(p'.x = pl.x ∧ p'.y = pl.y) := by
        intro p' hp' hc
        exact hnd.1 (List.mem_map.mpr ⟨p', hp', by rw [hc.1, hc.2]⟩)
      rw [getCell_applyPlacements_notmem rest _ rack pid tn pl.x pl.y hnot]
      have hy : pl.y < b.length := by
        rw [hb.1]
        exact (hq pl hmem).2
      have hx : pl.x < (b.getD pl.y []).length := by
        rw [getD_nil_eq_getElem hy, hb.2 _ (List.getElem_mem _)]
        exact (hq pl hmem).1
      rw [getCell_updateCell_self b pl.x pl.y _ hy hx]
    · exact ih _ (updateCell_boardWF _ _ _ _ hb) hmem' hnd.2
        (fun p hp => hq p (List.mem_cons_of_mem q hp))

/-- A successful validation implies every placement is in bounds. -/
theorem validatePlay_ok_bounds (board : Board) (rack : List Tile)
    (placements : List MovePlacement) (dict : String → Bool) (pd : PlayData)
    (h : validatePlay board rack placements dict = .ok pd) :
    ∀ q ∈ placements, q.x < 15 ∧ q.y < 15 := by
  unfold validatePlay at h
  by_cases h0 : (placements.length == 0) = true
  · rw [if_pos h0] at h
    cases h
  rw [if_neg h0] at h
  rcases hf : placements.find? (fun pl =>
      !(decide (pl.x < 15) && decide (pl.y < 15)) ||
        (getCell board pl.x pl.y).tile.isSome) with _ | q
  · intro q hq
    have hnp := List.find?_eq_none.mp hf q hq
    simp only [Bool.or_eq_true, Bool.not_eq_true', Bool.and_eq_true,
      decide_eq_true_eq, not_or, Bool.not_eq_true] at hnp
    have hb : (decide (q.x < 15) && decide (q.y < 15)) = true := by
      cases hdec : (decide (q.x < 15) && decide (q.y < 15))
      · exact absurd hdec hnp.1
      · rfl
    rw [Bool.and_eq_true, decide_eq_true_eq, decide_eq_true_eq] at hb
    exact hb
  · rw [hf] at h
    simp at h


/-- C5 fixture: the active player holds a joker and the S tile. -/
def c5Player : Player :=
  { id := "p1", nickname := "Jo", connected := true, ready := true,
    score := 0, rack := [tileJ, tileS], stats := stats0 }

/-- C5 fixture: fresh game on the empty board with one bag tile. -/
def c5Game : GameState :=
  { board := emptyBoard, bag := [tileA], turnIndex := 0,
    activePlayerId := "p1", turnEndsAt := 0, turnDurationMs := 120000,
    lastMove := none, log := [], consecutivePasses := 0, startedAt := 0,
    version := 3 }

/-- C5 fixture room. -/
def c5Room : Room :=
  { id := "RJ", hostId := "p1", status := .playing, maxPlayers := 4,
    players := [c5Player], game := some c5Game, lastActivityAt := 0 }

/-- C5 placements: the joker on the centre star, the S beside it. -/
def c5Pls : List MovePlacement :=
  [{ x := 7, y := 7, tileId := "tJ" }, { x := 8, y := 7, tileId := "tS" }]

/-- C5 counterexample: a successful play placing the joker on the centre.
MovePlacement (src/src/models/types.ts lines 33–37) carries no letter field,
so no letter can be chosen for a joker: the word is validated as the
wildcard "?S", and the tile stored in the cell keeps the rack joker's empty
letter rather than any chosen letter (its value stays 0). -/
theorem c5_joker_letter_counterexample :
    (playMove c5Room "p1" .play c5Pls [] dictAll randZero 99).1 =
      .ok ({ playerId := "p1", action := .play, words := ["?S"], score := 1,
             placements := c5Pls, turnNumber := 4, createdAt := 99 }, false) ∧
    ((playMove c5Room "p1" .play c5Pls [] dictAll randZero 99).2.game.map
      (fun g => (getCell g.board 7 7).tile)).getD none =
      some { toTile := tileJ, fromPlayerId := "p1", turnPlayed := 4 } ∧
    tileJ.isJoker = true ∧ tileJ.letter = "" ∧ tileJ.value = 0 := by
  refine ⟨by decide, by decide, rfl, rfl, rfl⟩

/-- C5 (amended): a successful play stores at each targeted cell an exact
copy of the rack tile the placement named — same letter (so still the empty
string for a joker: there is no chosen letter, MovePlacement has no letter
field), same value (0 for a joker) and same isJoker flag — stamped with the
playing player's id and the turn number version + 1. -/
theorem c5_joker_placement (room : Room) (playerId : String)
    (placements : List MovePlacement) (dict : String → Bool)
    (rand : Nat → Nat) (now : Nat) (mv : MoveSummary) (ended : Bool)
    (r' : Room) (g : GameState) (idx : Nat) (pl : MovePlacement) (t : Tile)
    (hg : room.game = some g)
    (hidx : room.players.findIdx? (fun p => p.id == playerId) = some idx)
    (hwf : boardWF g.board)
    (hmem : pl ∈ placements)
    (hnd : (placements.map (fun q => (q.x, q.y))).Nodup)
    (ht : (room.players.getD idx default).rack.find?
      (fun t0 => t0.id == pl.tileId) = some t)
    (h : playMove room playerId .play placements [] dict rand now =
      (.ok (mv, ended), r')) :
    ∃ g', r'.game = some g' ∧
      (getCell g'.board pl.x pl.y).tile =
        some { toTile := t, fromPlayerId := playerId,
               turnPlayed := g.version + 1 } := by
  obtain ⟨g0, idx0, hg0, hidx0, hact, hbr⟩ := playMove_ok_cases room playerId
    .play placements [] dict rand now mv ended r' h
  have hgg : g = g0 := by
    rw [hg] at hg0
    injection hg0
  subst hgg
  have hii : idx = idx0 := by
    rw [hidx] at hidx0
    injection hidx0
  subst hii
  rcases hbr with ⟨hc, _⟩ | ⟨hc, _⟩ | ⟨pd, _, hv, happ⟩
  · cases hc
  · cases hc
  · unfold applyPlay at happ
    dsimp only at happ
    have hr' := congrArg (fun z : MoveSummary × Room × Bool => z.2.1) happ
    dsimp only at hr'
    rw [← hr']
    rw [commitMove_fst_game]
    refine ⟨_, rfl, ?_⟩
    show (getCell (applyPlacements g.board placements
        (room.players.getD idx default).rack playerId (g.version + 1))
        pl.x pl.y).tile =
      some { toTile := t, fromPlayerId := playerId,
             turnPlayed := g.version + 1 }
    rw [getCell_applyPlacements_mem placements g.board
      (room.players.getD idx default).rack playerId (g.version + 1) pl hwf
      hmem hnd (validatePlay_ok_bounds g.board
        (room.players.getD idx default).rack placements dict pd hv)]
    rw [ht]
    rfl

/-- C5 amended-claim witness: the joker placed on the centre star ends up
stored there as the unchanged rack joker stamped p1 / turn 4. -/
theorem c5_joker_placement_witness :
    ∃ g', ((playMove c5Room "p1" .play c5Pls [] dictAll randZero
        99).2).game = some g' ∧
      (getCell g'.board 7 7).tile =
        some { toTile := tileJ, fromPlayerId := "p1",
               turnPlayed := c5Game.version + 1 } :=
  c5_joker_placement c5Room "p1" c5Pls dictAll randZero 99
    { playerId := "p1", action := .play, words := ["?S"], score := 1,
      placements := c5Pls, turnNumber := 4, createdAt := 99 } false
    ((playMove c5Room "p1" .play c5Pls [] dictAll randZero 99).2)
    c5Game 0 { x := 7, y := 7, tileId := "tJ" } tileJ rfl (by decide)
    (by decide) (by decide) (by decide) (by decide) (by decide)

/-- Modelled from the spec: the direction of the main span — a row when all
placements share the first placement's row, otherwise a column. -/
def specDir (placements : List MovePlacement) : Dir :=
  if placements.all (fun p => p.y == (placements.headD default).y) then
    Dir.row
  else Dir.col

/-- Modelled from the spec, check 1: placements non-empty. -/
def specCheckNonEmpty (placements : List MovePlacement) : Prop :=
  placements ≠ []

/-- Modelled from the spec, check 2: every placement is in bounds and
targets an empty cell. -/
def specCheckBoundsEmpty (board : Board)
    (placements : List MovePlacement) : Prop :=
  ∀ pl ∈ placements,
    (pl.x < 15 ∧ pl.y < 15) ∧ (getCell board pl.x pl.y).tile = none

/-- Modelled from the spec, check 3: every tile id names a rack tile and no
tile id is used twice. -/
def specCheckRack (rack : List Tile) (placements : List MovePlacement) :
    Prop :=
  (∀ pl ∈ placements, ∃ t ∈ rack, t.id = pl.tileId) ∧
    (placements.map (fun p => p.tileId)).Nodup

/-- Modelled from the spec, check 4: the placements are collinear — all in
the first placement's row or all in its column. -/
def specCheckAligned (placements : List MovePlacement) : Prop :=
  (∀ p ∈ placements, p.y = (placements.headD default).y) ∨
    (∀ p ∈ placements, p.x = (placements.headD default).x)

/-- Modelled from the spec, check 5: the first move covers the centre. -/
def specCheckCenter (board : Board) (placements : List MovePlacement) :
    Prop :=
  boardIsEmpty board = true → ∃ p ∈ placements, p.x = 7 ∧ p.y = 7

/-- Modelled from the spec, check 6: the main span is contiguous.  The span
itself is the code's, since the claim under test is the order of the checks,
not the span construction (covered by C1 and C4). -/
def specCheckContiguous (board : Board) (rack : List Tile)
    (placements : List MovePlacement) : Prop :=
  (buildMainWord board placements (buildPlacementInfo placements rack)
    (specDir placements)).contiguous = true

/-- Modelled from the spec, check 7: except on the first move, the main
span connects to an existing tile. -/
def specCheckConnected (board : Board) (rack : List Tile)
    (placements : List MovePlacement) : Prop :=
  boardIsEmpty board = false →
    (buildMainWord board placements (buildPlacementInfo placements rack)
      (specDir placements)).connected = true

/-- The words the move forms: the main span's word and the cross words. -/
def specFormedWords (board : Board) (rack : List Tile)
    (placements : List MovePlacement) : List String :=
  (buildMainWord board placements (buildPlacementInfo placements rack)
    (specDir placements)).word ::
    (buildCrossWords board placements (buildPlacementInfo placements rack)
      (specDir placements)).map (fun c => c.word)

/-- Modelled from the code's extra check: some formed word has length ≥ 2.
The spec's check list omits this check. -/
def specCheckWordFormed (board : Board) (rack : List Tile)
    (placements : List MovePlacement) : Prop :=
  ∃ w ∈ specFormedWords board rack placements, 1 < w.length

/-- Modelled from the spec, check 8: every formed word of length ≥ 2 passes
the dictionary. -/
def specCheckDict (board : Board) (rack : List Tile)
    (placements : List MovePlacement) (dict : String → Bool) : Prop :=
  ∀ w ∈ specFormedWords board rack placements,
    1 < w.length → dict (normalizeWord w) = true

/-- Modelled from the spec: all nine checks hold (the spec's eight plus the
code's formed-word check). -/
def specPlayLegal (board : Board) (rack : List Tile)
    (placements : List MovePlacement) (dict : String → Bool) : Prop :=
  specCheckNonEmpty placements ∧
  specCheckBoundsEmpty board placements ∧
  specCheckRack rack placements ∧
  specCheckAligned placements ∧
  specCheckCenter board placements ∧
  specCheckContiguous board rack placements ∧
  specCheckConnected board rack placements ∧
  specCheckWordFormed board rack placements ∧
  specCheckDict board rack placements dict

/-- Modelled from the spec: the error names the first failing check — every
earlier check holds, the named check fails, and the error's own datum is
consistent with the offending placement or word.  Errors of the other
playMove branches never arise from play validation. -/
def errFirstFail (board : Board) (rack : List Tile)
    (placements : List MovePlacement) (dict : String → Bool) :
    PlayErr → Prop
  | .NO_PLACEMENTS => ¬ specCheckNonEmpty placements
  | .OUT_OF_BOUNDS =>
      specCheckNonEmpty placements ∧
      ¬ specCheckBoundsEmpty board placements ∧
      ∃ pl ∈ placements, ¬(pl.x < 15 ∧ pl.y < 15)
  | .CELL_OCCUPIED =>
      specCheckNonEmpty placements ∧
      ¬ specCheckBoundsEmpty board placements ∧
      ∃ pl ∈ placements,
        (pl.x < 15 ∧ pl.y < 15) ∧ (getCell board pl.x pl.y).tile ≠ none
  | .TILE_NOT_IN_RACK =>
      specCheckNonEmpty placements ∧
      specCheckBoundsEmpty board placements ∧
      ¬ specCheckRack rack placements ∧
      ∃ pl ∈ placements, ¬ ∃ t ∈ rack, t.id = pl.tileId
  | .DUPLICATE_TILE =>
      specCheckNonEmpty placements ∧
      specCheckBoundsEmpty board placements ∧
      ¬ specCheckRack rack placements ∧
      ¬ (placements.map (fun p => p.tileId)).Nodup
  | .NOT_ALIGNED =>
      specCheckNonEmpty placements ∧
      specCheckBoundsEmpty board placements ∧
      specCheckRack rack placements ∧
      ¬ specCheckAligned placements
  | .MUST_COVER_CENTER =>
      specCheckNonEmpty placements ∧
      specCheckBoundsEmpty board placements ∧
      specCheckRack rack placements ∧
      specCheckAligned placements ∧
      ¬ specCheckCenter board placements
  | .NOT_CONTIGUOUS =>
      specCheckNonEmpty placements ∧
      specCheckBoundsEmpty board placements ∧
      specCheckRack rack placements ∧
      specCheckAligned placements ∧
      specCheckCenter board placements ∧
      ¬ specCheckContiguous board rack placements
  | .NOT_CONNECTED =>
      specCheckNonEmpty placements ∧
      specCheckBoundsEmpty board placements ∧
      specCheckRack rack placements ∧
      specCheckAligned placements ∧
      specCheckCenter board placements ∧
      specCheckContiguous board rack placements ∧
      ¬ specCheckConnected board rack placements
  | .NO_WORD_FORMED =>
      specCheckNonEmpty placements ∧
      specCheckBoundsEmpty board placements ∧
      specCheckRack rack placements ∧
      specCheckAligned placements ∧
      specCheckCenter board placements ∧
      specCheckContiguous board rack placements ∧
      specCheckConnected board rack placements ∧
      ¬ specCheckWordFormed board rack placements
  | .INVALID_WORD w =>
      specCheckNonEmpty placements ∧
      specCheckBoundsEmpty board placements ∧
      specCheckRack rack placements ∧
      specCheckAligned placements ∧
      specCheckCenter board placements ∧
      specCheckContiguous board rack placements ∧
      specCheckConnected board rack placements ∧
      specCheckWordFormed board rack placements ∧
      ¬ specCheckDict board rack placements dict ∧
      w ∈ specFormedWords board rack placements ∧ 1 < w.length ∧
      dict (normalizeWord w) = false
  | _ => False

/-- Check 1 in the code's boolean form. -/
theorem stage1_iff (placements : List MovePlacement) :
    (placements.length == 0) = true ↔ ¬ specCheckNonEmpty placements := by
  simp [specCheckNonEmpty, List.length_eq_zero, not_not]

/-- Check 2 in the code's find? form: no offending placement. -/
theorem stage2_none_iff (board : Board) (placements : List MovePlacement) :
    placements.find? (fun pl =>
      !(decide (pl.x < 15) && decide (pl.y < 15)) ||
        (getCell board pl.x pl.y).tile.isSome) = none ↔
    specCheckBoundsEmpty board placements := by
  rw [List.find?_eq_none]
  unfold specCheckBoundsEmpty
  constructor
  · intro h pl hpl
    have hh := h pl hpl
    simp only [Bool.or_eq_true, not_or, Bool.not_eq_true', Bool.not_eq_false,
      Bool.and_eq_true, decide_eq_true_eq, Option.isSome_iff_exists] at hh
    refine ⟨hh.1, ?_⟩
    rcases hcell : (getCell board pl.x pl.y).tile with _ | t
    · rfl
    · exact absurd ⟨t, hcell⟩ hh.2
  · intro h pl hpl
    have hh := h pl hpl
    simp only [Bool.or_eq_true, not_or, Bool.not_eq_true', Bool.not_eq_false,
      Bool.and_eq_true, decide_eq_true_eq]
    refine ⟨⟨hh.1.1, hh.1.2⟩, ?_⟩
    rw [hh.2]
    simp

/-- Bool list containment as membership. -/
theorem contains_iff_mem_str (l : List String) (a : String) :
    l.contains a = true ↔ a ∈ l := by
  simp [List.contains, List.elem_iff]

/-- Rack-id membership as rack-tile existence. -/
theorem contains_map_id_iff (rack : List Tile) (i : String) :
    (rack.map (fun t => t.id)).contains i = true ↔
      ∃ t ∈ rack, t.id = i := by
  simp [List.contains, List.elem_iff, List.mem_map]

/-- firstRackErr finds nothing exactly when every id is on the rack, none
repeats, and none was already used. -/
theorem firstRackErr_none_iff (R : List String)
    (ps : List MovePlacement) (used : List String) :
    firstRackErr R ps used = none ↔
      (∀ p ∈ ps, R.contains p.tileId = true) ∧
      (ps.map (fun p => p.tileId)).Nodup ∧
      ∀ p ∈ ps, p.tileId ∉ used := by
  induction ps generalizing used with
  | nil => simp [firstRackErr]
  | cons pl rest ih =>
    simp only [firstRackErr]
    by_cases h1 : (!(R.contains pl.tileId)) = true
    · rw [if_pos h1]
      simp only [Bool.not_eq_true'] at h1
      constructor
      · intro hc
        cases hc
      · intro hc
        rw [hc.1 pl (List.mem_cons_self pl rest)] at h1
        cases h1
    · rw [if_neg h1]
      simp only [Bool.not_eq_true', Bool.not_eq_false] at h1
      by_cases h2 : used.contains pl.tileId = true
      · rw [if_pos h2]
        constructor
        · intro hc
          cases hc
        · intro hc
          exact absurd ((contains_iff_mem_str used pl.tileId).mp h2)
            (hc.2.2 pl (List.mem_cons_self pl rest))
      · rw [if_neg h2]
        rw [ih (pl.tileId :: used)]
        constructor
        · rintro ⟨ha, hb, hcx⟩
          refine ⟨?_, ?_, ?_⟩
          · intro p hp
            rcases List.mem_cons.mp hp with rfl | hp2
            · exact h1
            · exact ha p hp2
          · rw [List.map_cons, List.nodup_cons]
            refine ⟨?_, hb⟩
            intro hm
            rcases List.mem_map.mp hm with ⟨p, hp, hpe⟩
            exact (hcx p hp) (hpe ▸ List.mem_cons_self _ _)
          · intro p hp
            rcases List.mem_cons.mp hp with rfl | hp2
            · intro hm
              exact h2 ((contains_iff_mem_str used _).mpr hm)
            · exact fun hm => (hcx p hp2) (List.mem_cons_of_mem _ hm)
        · rintro ⟨ha, hb, hcx⟩
          rw [List.map_cons, List.nodup_cons] at hb
          refine ⟨fun p hp => ha p (List.mem_cons_of_mem _ hp), hb.2, ?_⟩
          intro p hp hm
          rcases List.mem_cons.mp hm with he | hm2
          · exact hb.1 (List.mem_map.mpr ⟨p, hp, he⟩)
          · exact (hcx p (List.mem_cons_of_mem _ hp)) hm2


/-- A double negation on Bool. -/
theorem bool_not_not {b : Bool} (h : ¬ ((!b) = true)) : b = true := by
  cases b
  · exact absurd rfl h
  · rfl

/-- firstRackErr only ever reports a missing or a duplicated tile id. -/
theorem firstRackErr_some_cases (R : List String)
    (ps : List MovePlacement) (used : List String) (e : PlayErr)
    (h : firstRackErr R ps used = some e) :
    (e = .TILE_NOT_IN_RACK ∧ ∃ p ∈ ps, R.contains p.tileId = false) ∨
    (e = .DUPLICATE_TILE ∧
      ¬ ((used ++ ps.map (fun p => p.tileId)).Nodup)) := by
  induction ps generalizing used with
  | nil => simp [firstRackErr] at h
  | cons pl rest ih =>
    simp only [firstRackErr] at h
    by_cases h1 : (!(R.contains pl.tileId)) = true
    · rw [if_pos h1] at h
      injection h with he
      left
      refine ⟨he.symm, pl, List.mem_cons_self pl rest, ?_⟩
      simpa using h1
    · rw [if_neg h1] at h
      by_cases h2 : used.contains pl.tileId = true
      · rw [if_pos h2] at h
        injection h with he
        right
        refine ⟨he.symm, ?_⟩
        intro hn
        rw [List.map_cons, List.nodup_append] at hn
        exact hn.2.2 ((contains_iff_mem_str used pl.tileId).mp h2)
          (List.mem_cons_self _ _)
      · rw [if_neg h2] at h
        rcases ih (pl.tileId :: used) h with ⟨he, p, hp, hcx⟩ | ⟨he, hnd⟩
        · left
          exact ⟨he, p, List.mem_cons_of_mem _ hp, hcx⟩
        · right
          refine ⟨he, ?_⟩
          intro hn
          apply hnd
          rw [List.map_cons] at hn
          exact (List.perm_middle.nodup hn : _)

/-- Check 4 in the code's boolean form. -/
theorem stage4_iff (placements : List MovePlacement) :
    (!(placements.all (fun p => p.y == (placements.headD default).y)) &&
      !(placements.all (fun p => p.x == (placements.headD default).x))) =
        true ↔ ¬ specCheckAligned placements := by
  unfold specCheckAligned
  rw [Bool.and_eq_true, Bool.not_eq_true', Bool.not_eq_true']
  constructor
  · rintro ⟨ha, hb⟩ hal
    rcases hal with hrow | hcol
    · have hx : placements.all
          (fun p => p.y == (placements.headD default).y) = true := by
        simp only [List.all_eq_true, beq_iff_eq]
        exact hrow
      rw [hx] at ha
      cases ha
    · have hx : placements.all
          (fun p => p.x == (placements.headD default).x) = true := by
        simp only [List.all_eq_true, beq_iff_eq]
        exact hcol
      rw [hx] at hb
      cases hb
  · intro h
    constructor
    · cases hr : placements.all (fun p => p.y == (placements.headD default).y)
      · rfl
      · exfalso
        apply h
        left
        intro p hp
        simpa using List.all_eq_true.mp hr p hp
    · cases hr : placements.all (fun p => p.x == (placements.headD default).x)
      · rfl
      · exfalso
        apply h
        right
        intro p hp
        simpa using List.all_eq_true.mp hr p hp

/-- Check 5 in the code's boolean form. -/
theorem stage5_iff (board : Board) (placements : List MovePlacement) :
    (boardIsEmpty board &&
      !(placements.any (fun p => p.x == 7 && p.y == 7))) = true ↔
    ¬ specCheckCenter board placements := by
  unfold specCheckCenter
  rw [Bool.and_eq_true, Bool.not_eq_true']
  constructor
  · rintro ⟨hb, hany⟩ hcc
    rcases hcc hb with ⟨p, hp, hx, hy⟩
    have hh : placements.any (fun p => p.x == 7 && p.y == 7) = true :=
      List.any_eq_true.mpr ⟨p, hp, by simp [hx, hy]⟩
    rw [hh] at hany
    cases hany
  · intro h
    by_cases hb : boardIsEmpty board = true
    · refine ⟨hb, ?_⟩
      cases hany : placements.any (fun p => p.x == 7 && p.y == 7)
      · rfl
      · exfalso
        apply h
        intro hdull
        rcases List.any_eq_true.mp hany with ⟨p, hp, hpe⟩
        exact ⟨p, hp, by simpa using hpe⟩
    · exact absurd (fun hbe => absurd hbe hb) h

/-- The formed-word filter is empty exactly when no word has length ≥ 2. -/
theorem filter_len_iff (l : List String) :
    (((l.filter (fun w => decide (1 < w.length))).length == 0) = true) ↔
      ¬ ∃ w ∈ l, 1 < w.length := by
  rw [beq_iff_eq, List.length_eq_zero, List.filter_eq_nil]
  simp

/-- The dictionary find? comes back empty exactly when every word passes. -/
theorem dictFind_none_iff (dict : String → Bool) (l : List String) :
    l.find? (fun w => !(dict (normalizeWord w))) = none ↔
      ∀ w ∈ l, dict (normalizeWord w) = true := by
  rw [List.find?_eq_none]
  simp

/-- What a hit of the dictionary find? means. -/
theorem dictFind_some (dict : String → Bool) (l : List String) (w : String)
    (h : l.find? (fun v => !(dict (normalizeWord v))) = some w) :
    w ∈ l ∧ dict (normalizeWord w) = false := by
  refine ⟨List.mem_of_find?_eq_some h, ?_⟩
  have hh := List.find?_some h
  simpa using hh

/-- Quantifying the dictionary over the filtered words is quantifying over
the words of length ≥ 2. -/
theorem forall_filter_len_iff (dict : String → Bool) (l : List String) :
    (∀ w ∈ l.filter (fun w => decide (1 < w.length)),
        dict (normalizeWord w) = true) ↔
      ∀ w ∈ l, 1 < w.length → dict (normalizeWord w) = true := by
  constructor
  · intro h w hw hlen
    exact h w (List.mem_filter.mpr ⟨hw, by simpa using hlen⟩)
  · intro h w hw
    rcases List.mem_filter.mp hw with ⟨hw1, hw2⟩
    exact h w hw1 (by simpa using hw2)


/-- C3 (amended): validatePlay succeeds exactly when all nine checks hold —
the spec's eight plus the code's formed-word check, inserted between
connection and dictionary — and every error it returns names the first
failing check in the spec's order. -/
theorem c3_first_failing_check (board : Board) (rack : List Tile)
    (placements : List MovePlacement) (dict : String → Bool) :
    ((∃ pd, validatePlay board rack placements dict = .ok pd) ↔
      specPlayLegal board rack placements dict) ∧
    ∀ e, validatePlay board rack placements dict = .error e →
      errFirstFail board rack placements dict e := by
  unfold validatePlay
  by_cases h1 : (placements.length == 0) = true
  · rw [if_pos h1]
    refine ⟨⟨fun hpd => ?_, fun hl => ?_⟩, fun e he => ?_⟩
    · rcases hpd with ⟨pd, hcp⟩
      cases hcp
    · exact absurd hl.1 ((stage1_iff placements).mp h1)
    · injection he with he2
      subst he2
      exact (stage1_iff placements).mp h1
  rw [if_neg h1]
  have hc1 : specCheckNonEmpty placements := by
    by_contra hcc
    exact h1 ((stage1_iff placements).mpr hcc)
  rcases h2 : placements.find? (fun pl =>
      !(decide (pl.x < 15) && decide (pl.y < 15)) ||
        (getCell board pl.x pl.y).tile.isSome) with _ | pl
  case neg.some =>
    rw [h2]
    dsimp only
    have hmem : pl ∈ placements := List.mem_of_find?_eq_some h2
    by_cases hb : (!(decide (pl.x < 15) && decide (pl.y < 15))) = true
    · rw [if_pos hb]
      have hbnds : ¬(pl.x < 15 ∧ pl.y < 15) := by
        have hh : 15 ≤ pl.x ∨ 15 ≤ pl.y := by simpa using hb
        intro hcc
        rcases hh with hh | hh <;> omega
      have hnot2 : ¬ specCheckBoundsEmpty board placements :=
        fun hs => hbnds (hs pl hmem).1
      refine ⟨⟨fun hpd => ?_, fun hl => ?_⟩, fun e he => ?_⟩
      · rcases hpd with ⟨pd, hcp⟩
        cases hcp
      · exact absurd hl.2.1 hnot2
      · injection he with he2
        subst he2
        exact ⟨hc1, hnot2, pl, hmem, hbnds⟩
    · rw [if_neg hb]
      have hbt : (decide (pl.x < 15) && decide (pl.y < 15)) = true :=
        bool_not_not hb
      have hxy : pl.x < 15 ∧ pl.y < 15 := by simpa using hbt
      have hpred := List.find?_some h2
      rw [Bool.or_eq_true] at hpred
      have hiso : (getCell board pl.x pl.y).tile.isSome = true := by
        rcases hpred with hL | hR
        · exact absurd hL hb
        · exact hR
      have htile : (getCell board pl.x pl.y).tile ≠ none := by
        intro hcc
        rw [hcc] at hiso
        cases hiso
      have hnot2 : ¬ specCheckBoundsEmpty board placements :=
        fun hs => htile (hs pl hmem).2
      refine ⟨⟨fun hpd => ?_, fun hl => ?_⟩, fun e he => ?_⟩
      · rcases hpd with ⟨pd, hcp⟩
        cases hcp
      · exact absurd hl.2.1 hnot2
      · injection he with he2
        subst he2
        exact ⟨hc1, hnot2, pl, hmem, hxy, htile⟩
  case neg.none =>
  rw [h2]
  dsimp only
  have hc2 : specCheckBoundsEmpty board placements :=
    (stage2_none_iff board placements).mp h2
  rcases h3 : firstRackErr (rack.map (·.id)) placements [] with _ | e3
  case some =>
    rw [h3]
    dsimp only
    rcases firstRackErr_some_cases (rack.map (·.id)) placements [] e3 h3 with
      ⟨he3, p, hp, hcf⟩ | ⟨he3, hnd⟩
    · have hnotex : ¬ ∃ t ∈ rack, t.id = p.tileId := by
        intro hex
        rw [(contains_map_id_iff rack p.tileId).mpr hex] at hcf
        cases hcf
      have hnot3 : ¬ specCheckRack rack placements :=
        fun h3c => hnotex (h3c.1 p hp)
      refine ⟨⟨fun hpd => ?_, fun hl => ?_⟩, fun e he => ?_⟩
      · rcases hpd with ⟨pd, hcp⟩
        cases hcp
      · exact absurd hl.2.2.1 hnot3
      · injection he with he2
        subst he2
        subst he3
        exact ⟨hc1, hc2, hnot3, p, hp, hnotex⟩
    · have hnd2 : ¬ (placements.map (fun p => p.tileId)).Nodup := hnd
      have hnot3 : ¬ specCheckRack rack placements :=
        fun h3c => hnd2 h3c.2
      refine ⟨⟨fun hpd => ?_, fun hl => ?_⟩, fun e he => ?_⟩
      · rcases hpd with ⟨pd, hcp⟩
        cases hcp
      · exact absurd hl.2.2.1 hnot3
      · injection he with he2
        subst he2
        subst he3
        exact ⟨hc1, hc2, hnot3, hnd2⟩
  case none =>
  rw [h3]
  dsimp only
  have hc3 : specCheckRack rack placements := by
    have hh := (firstRackErr_none_iff (rack.map (·.id)) placements []).mp h3
    refine ⟨?_, hh.2.1⟩
    intro p hp
    exact (contains_map_id_iff rack p.tileId).mp (hh.1 p hp)
  by_cases h4 : (!(placements.all
      (fun p => p.y == (placements.headD default).y)) &&
      !(placements.all
        (fun p => p.x == (placements.headD default).x))) = true
  · rw [if_pos h4]
    have hna : ¬ specCheckAligned placements := (stage4_iff placements).mp h4
    refine ⟨⟨fun hpd => ?_, fun hl => ?_⟩, fun e he => ?_⟩
    · rcases hpd with ⟨pd, hcp⟩
      cases hcp
    · exact absurd hl.2.2.2.1 hna
    · injection he with he2
      subst he2
      exact ⟨hc1, hc2, hc3, hna⟩
  rw [if_neg h4]
  have hc4 : specCheckAligned placements := by
    by_contra hcc
    exact h4 ((stage4_iff placements).mpr hcc)
  by_cases h5 : (boardIsEmpty board &&
      !(placements.any (fun p => p.x == 7 && p.y == 7))) = true
  · rw [if_pos h5]
    have hnc : ¬ specCheckCenter board placements :=
      (stage5_iff board placements).mp h5
    refine ⟨⟨fun hpd => ?_, fun hl => ?_⟩, fun e he => ?_⟩
    · rcases hpd with ⟨pd, hcp⟩
      cases hcp
    · exact absurd hl.2.2.2.2.1 hnc
    · injection he with he2
      subst he2
      exact ⟨hc1, hc2, hc3, hc4, hnc⟩
  rw [if_neg h5]
  have hc5 : specCheckCenter board placements := by
    by_contra hcc
    exact h5 ((stage5_iff board placements).mpr hcc)
  generalize hM : buildMainWord board placements
    (buildPlacementInfo placements rack)
    (if placements.all (fun p => p.y == (placements.headD default).y) then
      Dir.row else Dir.col) = M
  generalize hC : buildCrossWords board placements
    (buildPlacementInfo placements rack)
    (if placements.all (fun p => p.y == (placements.headD default).y) then
      Dir.row else Dir.col) = C
  by_cases h6 : (!M.contiguous) = true
  · rw [if_pos h6]
    have hncg : ¬ specCheckContiguous board rack placements := by
      unfold specCheckContiguous specDir
      rw [hM]
      intro hcc
      rw [hcc] at h6
      cases h6
    refine ⟨⟨fun hpd => ?_, fun hl => ?_⟩, fun e he => ?_⟩
    · rcases hpd with ⟨pd, hcp⟩
      cases hcp
    · exact absurd hl.2.2.2.2.2.1 hncg
    · injection he with he2
      subst he2
      exact ⟨hc1, hc2, hc3, hc4, hc5, hncg⟩
  rw [if_neg h6]
  have hc6 : specCheckContiguous board rack placements := by
    unfold specCheckContiguous specDir
    rw [hM]
    exact bool_not_not h6
  by_cases h7 : (!(boardIsEmpty board) && !M.connected) = true
  · rw [if_pos h7]
    rw [Bool.and_eq_true] at h7
    have hbe : boardIsEmpty board = false := by simpa using h7.1
    have hcn : M.connected = false := by simpa using h7.2
    have hncn : ¬ specCheckConnected board rack placements := by
      unfold specCheckConnected specDir
      rw [hM]
      intro hcc
      rw [hcc hbe] at hcn
      cases hcn
    refine ⟨⟨fun hpd => ?_, fun hl => ?_⟩, fun e he => ?_⟩
    · rcases hpd with ⟨pd, hcp⟩
      cases hcp
    · exact absurd hl.2.2.2.2.2.2.1 hncn
    · injection he with he2
      subst he2
      exact ⟨hc1, hc2, hc3, hc4, hc5, hc6, hncn⟩
  rw [if_neg h7]
  have hc7 : specCheckConnected board rack placements := by
    unfold specCheckConnected specDir
    rw [hM]
    intro hbe
    cases hcn : M.connected
    · exfalso
      apply h7
      rw [Bool.and_eq_true]
      exact ⟨by rw [hbe]; rfl, by rw [hcn]; rfl⟩
    · rfl
  by_cases h8 : (((M.word :: C.map (fun c => c.word)).filter
      (fun w => decide (1 < w.length))).length == 0) = true
  · rw [if_pos h8]
    have hnwf : ¬ specCheckWordFormed board rack placements := by
      unfold specCheckWordFormed specFormedWords specDir
      rw [hM, hC]
      exact (filter_len_iff _).mp h8
    refine ⟨⟨fun hpd => ?_, fun hl => ?_⟩, fun e he => ?_⟩
    · rcases hpd with ⟨pd, hcp⟩
      cases hcp
    · exact absurd hl.2.2.2.2.2.2.2.1 hnwf
    · injection he with he2
      subst he2
      exact ⟨hc1, hc2, hc3, hc4, hc5, hc6, hc7, hnwf⟩
  rw [if_neg h8]
  have hc8 : specCheckWordFormed board rack placements := by
    unfold specCheckWordFormed specFormedWords specDir
    rw [hM, hC]
    by_contra hcc
    exact h8 ((filter_len_iff _).mpr hcc)
  rcases h9 : (M.word :: C.map (fun c => c.word)).filter
      (fun w => decide (1 < w.length)) |>.find?
      (fun w => !(dict (normalizeWord w))) with _ | w
  · rw [h9]
    dsimp only
    have hc9 : specCheckDict board rack placements dict := by
      unfold specCheckDict specFormedWords specDir
      rw [hM, hC]
      exact (forall_filter_len_iff dict _).mp
        ((dictFind_none_iff dict _).mp h9)
    refine ⟨⟨fun _ => ⟨hc1, hc2, hc3, hc4, hc5, hc6, hc7, hc8, hc9⟩,
      fun _ => ⟨_, rfl⟩⟩, fun e he => ?_⟩
    cases he
  · rw [h9]
    dsimp only
    have hds := dictFind_some dict _ w h9
    rcases List.mem_filter.mp hds.1 with ⟨hwmem, hwlen0⟩
    have hwlen : 1 < w.length := by simpa using hwlen0
    have hwmem2 : w ∈ specFormedWords board rack placements := by
      unfold specFormedWords specDir
      rw [hM, hC]
      exact hwmem
    have hndict : ¬ specCheckDict board rack placements dict := by
      intro hd
      have := hd w hwmem2 hwlen
      rw [this] at hds
      cases hds.2
    refine ⟨⟨fun hpd => ?_, fun hl => ?_⟩, fun e he => ?_⟩
    · rcases hpd with ⟨pd, hcp⟩
      cases hcp
    · exact absurd hl.2.2.2.2.2.2.2.2 hndict
    · injection he with he2
      subst he2
      exact ⟨hc1, hc2, hc3, hc4, hc5, hc6, hc7, hc8, hndict, hwmem2,
        hwlen, hds.2⟩


/-- C3 counterexample placements: the lone S on the centre of an empty
board. -/
def c3Pls : List MovePlacement := [{ x := 7, y := 7, tileId := "tS" }]

/-- C3 counterexample: on the first move a lone tile on the centre passes
every one of the spec's eight checks — the dictionary check is vacuous, as
no formed word reaches length 2 — yet validatePlay rejects the play with
NO_WORD_FORMED, an error that corresponds to none of theeight listed checks. -/
theorem c3_claimed_checks_counterexample :
    validatePlay emptyBoard [tileS] c3Pls dictAll =
      .error .NO_WORD_FORMED ∧
    specCheckNonEmpty c3Pls ∧
    specCheckBoundsEmpty emptyBoard c3Pls ∧
    specCheckRack [tileS] c3Pls ∧
    specCheckAligned c3Pls ∧
    specCheckCenter emptyBoard c3Pls ∧
    specCheckContiguous emptyBoard [tileS] c3Pls ∧
    specCheckConnected emptyBoard [tileS] c3Pls ∧
    specCheckDict emptyBoard [tileS] c3Pls dictAll := by
  refine ⟨by decide, by unfold specCheckNonEmpty; decide,
    by unfold specCheckBoundsEmpty; decide,
    by unfold specCheckRack; decide,
    by unfold specCheckAligned; decide,
    by unfold specCheckCenter; decide,
    by unfold specCheckContiguous specDir; decide,
    by unfold specCheckConnected specDir; decide,
    by unfold specCheckDict specFormedWords specDir; decide⟩

/-- C3 witness: at the lone-centre-tile input the amended theorem reports
NO_WORD_FORMED as the first failing check. -/
theorem c3_first_failing_check_witness :
    errFirstFail emptyBoard [tileS] c3Pls dictAll .NO_WORD_FORMED :=
  (c3_first_failing_check emptyBoard [tileS] c3Pls dictAll).2
    .NO_WORD_FORMED (by decide)

end Scrabble
